import Mathlib

/-
Verification development for the chrome-browser grid automation tool.

The embedding models the worker script (cdp-bridge, the variant shipped with
the grid/zone features) and the client module (chrome-client): spreadsheet
grid coordinates, the grid-screenshot compositor geometry, the image-to-CSS
coordinate-space mapping, the zone element scanner, its retry loop, the
Gemini element matcher, the defensive JSON response parsing with its
one-retry policy, and the bridge worker invocation contract.

Strings are modelled as `List Char`.  JavaScript numbers are modelled as
exact arithmetic (`Nat`, `Int`, `Rat`): the programs under study only ever
manipulate values far below the range where IEEE-754 doubles lose integer
precision, so exact arithmetic is the faithful reading.
-/

/-! ### Character and string primitives (JS `trim`, `toUpperCase`, …) -/

/-- Characters removed by JavaScript `String.prototype.trim` (WhiteSpace and
LineTerminator code points; the ASCII ones plus NBSP, BOM, LS, PS). -/
def isJsSpace (c : Char) : Bool :=
  c.toNat = 9 || c.toNat = 10 || c.toNat = 11 || c.toNat = 12 || c.toNat = 13 ||
  c.toNat = 32 || c.toNat = 160 || c.toNat = 65279 || c.toNat = 8232 || c.toNat = 8233

/-- JS `String.prototype.trim` on a char list. -/
def trimL (cs : List Char) : List Char :=
  ((cs.dropWhile isJsSpace).reverse.dropWhile isJsSpace).reverse

/-- JS `String.prototype.toUpperCase`, restricted to the ASCII range the
grid code relies on. -/
def upChar (c : Char) : Char :=
  if 97 ≤ c.toNat ∧ c.toNat ≤ 122 then Char.ofNat (c.toNat - 32) else c

/-- JS `String.prototype.toLowerCase`, ASCII range. -/
def lowChar (c : Char) : Char :=
  if 65 ≤ c.toNat ∧ c.toNat ≤ 90 then Char.ofNat (c.toNat + 32) else c

/-- Lowercase a whole string (JS `s.toLowerCase()`). -/
def lowerL (cs : List Char) : List Char := cs.map lowChar

/-- `pat` is a literal prefix of `s` (decidable, executable). -/
def listPrefixB : List Char → List Char → Bool
  | [], _ => true
  | _ :: _, [] => false
  | p :: ps, c :: cs => p == c && listPrefixB ps cs

/-- JS `String.prototype.includes`: `pat` occurs as a contiguous substring
of `s`. -/
def containsSub (pat : List Char) : List Char → Bool
  | [] => decide (pat = [])
  | c :: rest => listPrefixB pat (c :: rest) || containsSub pat rest

/-- `[A-Z]` test. -/
def isUpperAlpha (c : Char) : Bool := decide (65 ≤ c.toNat) && decide (c.toNat ≤ 90)

/-- `[0-9]` test (JS regex `\d`). -/
def isDigitCh (c : Char) : Bool := decide (48 ≤ c.toNat) && decide (c.toNat ≤ 57)

/-! ### CoordinateGrid: `colLabel` and `parseCell` (cdp-bridge) -/

/-- `colLabel` from cdp-bridge: bijective base-26 spreadsheet column name for a
zero-based column index (`A` = 0, `Z` = 25, `AA` = 26, …).  The source loops
`label = chr(65 + i % 26) + label; i = floor(i / 26) - 1` while `i ≥ 0`. -/
def colLabel (index : Nat) : List Char :=
  if h : index < 26 then [Char.ofNat (65 + index)]
  else colLabel (index / 26 - 1) ++ [Char.ofNat (65 + index % 26)]
termination_by index
decreasing_by
  have h2 : index / 26 < index := Nat.div_lt_self (by omega) (by omega)
  omega

/-- Decimal rendering of a natural number (JS number-to-string interpolation
`${n}` for the integral row numbers the overlay prints). -/
def natDecL (n : Nat) : List Char :=
  if h : n < 10 then [Char.ofNat (48 + n)]
  else natDecL (n / 10) ++ [Char.ofNat (48 + n % 10)]
termination_by n
decreasing_by
  have h2 : n / 10 < n := Nat.div_lt_self (by omega) (by omega)
  omega

/-- Column-letter accumulator of `parseCell`:
`col = col * 26 + (charCode - 64)` over the letters. -/
def colValL (ls : List Char) : Nat :=
  ls.foldl (fun a c => a * 26 + (c.toNat - 64)) 0

/-- Decimal value of a digit string (JS `Number.parseInt(text, 10)` on an
all-digit string). -/
def digitsValL (ds : List Char) : Nat :=
  ds.foldl (fun a c => a * 10 + (c.toNat - 48)) 0

/-- Error text `Invalid grid coordinate: ${input}`. -/
def invalidCoordMsg (input : List Char) : List Char :=
  ("Invalid grid coordinate: ").data ++ input

/-- Error text `Invalid row index in coordinate: ${input}`. -/
def invalidRowMsg (input : List Char) : List Char :=
  ("Invalid row index in coordinate: ").data ++ input

/-- `parseCell` from cdp-bridge: trim and uppercase the input, match
`^([A-Z]+)(\d+)$`, decode the letters in bijective base 26 and the digits in
decimal, reject row `≤ 0`, and return the zero-based `(col, row)` pair.
The regex match is rendered as the maximal `[A-Z]` prefix followed by a
non-empty all-digit remainder, which is equivalent because the two character
classes are disjoint. -/
def parseCellCore (input trimmed : List Char) : Except (List Char) (Nat × Nat) :=
  let letters := trimmed.takeWhile isUpperAlpha
  let rest := trimmed.dropWhile isUpperAlpha
  if letters = [] ∨ rest = [] ∨ ¬ (rest.all isDigitCh) then
    .error (invalidCoordMsg input)
  else
    let col := colValL letters
    let row := digitsValL rest
    if row ≤ 0 then .error (invalidRowMsg input)
    else .ok (col - 1, row - 1)

def parseCell (input : List Char) : Except (List Char) (Nat × Nat) :=
  parseCellCore input ((trimL input).map upChar)

/-- The label grammar `[A-Z]+[1-9][0-9]*` of the round-trip property. -/
def matchesLabelB (l : List Char) : Bool :=
  let letters := l.takeWhile isUpperAlpha
  let rest := l.dropWhile isUpperAlpha
  decide (letters ≠ []) && decide (rest ≠ []) && rest.all isDigitCh &&
    decide (rest.headD '0' ≠ '0')

/-! ### Round-trip lemmas for the coordinate grid -/

theorem dropWhile_eq_self_of_none (p : Char → Bool) :
    ∀ l : List Char, (∀ c ∈ l, p c = false) → l.dropWhile p = l := by
  intro l h
  cases l with
  | nil => rfl
  | cons c cs =>
    have hc : p c = false := h c (by simp)
    simp [List.dropWhile, hc]

theorem trimL_eq_self (l : List Char) (h : ∀ c ∈ l, isJsSpace c = false) :
    trimL l = l := by
  unfold trimL
  rw [dropWhile_eq_self_of_none isJsSpace l h]
  rw [dropWhile_eq_self_of_none isJsSpace l.reverse (by intro c hc; exact h c (List.mem_reverse.mp hc))]
  exact List.reverse_reverse l

theorem map_upChar_eq_self (l : List Char) (h : ∀ c ∈ l, upChar c = c) :
    l.map upChar = l := by
  induction l with
  | nil => rfl
  | cons c cs ih =>
    simp only [List.map_cons]
    rw [h c (by simp), ih (fun x hx => h x (by simp [hx]))]

theorem upChar_of_upperAlpha (c : Char) (h : isUpperAlpha c = true) : upChar c = c := by
  simp only [isUpperAlpha, Bool.and_eq_true, decide_eq_true_eq] at h
  unfold upChar
  rw [if_neg (by omega)]

theorem upChar_of_digit (c : Char) (h : isDigitCh c = true) : upChar c = c := by
  simp only [isDigitCh, Bool.and_eq_true, decide_eq_true_eq] at h
  unfold upChar
  rw [if_neg (by omega)]

theorem not_space_of_upperAlpha (c : Char) (h : isUpperAlpha c = true) :
    isJsSpace c = false := by
  simp only [isUpperAlpha, Bool.and_eq_true, decide_eq_true_eq] at h
  simp only [isJsSpace, Bool.or_eq_false_iff, decide_eq_false_iff_not]
  omega

theorem not_space_of_digit (c : Char) (h : isDigitCh c = true) :
    isJsSpace c = false := by
  simp only [isDigitCh, Bool.and_eq_true, decide_eq_true_eq] at h
  simp only [isJsSpace, Bool.or_eq_false_iff, decide_eq_false_iff_not]
  omega

theorem toNat_ofNat_small (n : Nat) (h : n < 55296) : (Char.ofNat n).toNat = n := by
  have hv : n.isValidChar := Or.inl h
  simp only [Char.ofNat, hv, dite_true]
  rfl

theorem foldl_colVal_ge_one (ls : List Char) (a : Nat) (ha : 1 ≤ a) :
    1 ≤ ls.foldl (fun a c => a * 26 + (c.toNat - 64)) a := by
  induction ls generalizing a with
  | nil => exact ha
  | cons c cs ih =>
    simp only [List.foldl_cons]
    exact ih _ (by nlinarith)

theorem colValL_ge_one (ls : List Char) (hne : ls ≠ [])
    (hall : ls.all isUpperAlpha = true) : 1 ≤ colValL ls := by
  cases ls with
  | nil => exact absurd rfl hne
  | cons c cs =>
    have hc : isUpperAlpha c = true := by
      have := List.all_eq_true.mp hall
      exact this c (by simp)
    simp only [isUpperAlpha, Bool.and_eq_true, decide_eq_true_eq] at hc
    unfold colValL
    simp only [List.foldl_cons]
    exact foldl_colVal_ge_one cs _ (by omega)

theorem foldl_digits_ge_one (ds : List Char) (a : Nat) (ha : 1 ≤ a) :
    1 ≤ ds.foldl (fun a c => a * 10 + (c.toNat - 48)) a := by
  induction ds generalizing a with
  | nil => exact ha
  | cons c cs ih =>
    simp only [List.foldl_cons]
    exact ih _ (by nlinarith)

theorem digitsValL_ge_one (ds : List Char) (hne : ds ≠ [])
    (hall : ds.all isDigitCh = true) (hhd : ds.headD '0' ≠ '0') :
    1 ≤ digitsValL ds := by
  cases ds with
  | nil => exact absurd rfl hne
  | cons d rest =>
    have hd : isDigitCh d = true := by
      have := List.all_eq_true.mp hall
      exact this d (by simp)
    simp only [isDigitCh, Bool.and_eq_true, decide_eq_true_eq] at hd
    have hd0 : d ≠ '0' := by simpa using hhd
    have hdn : d.toNat ≠ 48 := by
      intro hcontra
      exact hd0 (by
        have hh : d = Char.ofNat d.toNat := (Char.ofNat_toNat d).symm
        rw [hh, hcontra])
    unfold digitsValL
    simp only [List.foldl_cons]
    exact foldl_digits_ge_one rest _ (by omega)

theorem colValL_append_singleton (ls : List Char) (c : Char) :
    colValL (ls ++ [c]) = colValL ls * 26 + (c.toNat - 64) := by
  unfold colValL
  rw [List.foldl_append]
  rfl

theorem digitsValL_append_singleton (ds : List Char) (d : Char) :
    digitsValL (ds ++ [d]) = digitsValL ds * 10 + (d.toNat - 48) := by
  unfold digitsValL
  rw [List.foldl_append]
  rfl

theorem colLabel_colValL (ls : List Char) (hne : ls ≠ [])
    (hall : ls.all isUpperAlpha = true) : colLabel (colValL ls - 1) = ls := by
  induction ls using List.reverseRecOn with
  | nil => exact absurd rfl hne
  | append_singleton ls c ih =>
    have hc : isUpperAlpha c = true := by
      have := List.all_eq_true.mp hall
      exact this c (by simp)
    have hcb : 65 ≤ c.toNat ∧ c.toNat ≤ 90 := by
      simpa only [isUpperAlpha, Bool.and_eq_true, decide_eq_true_eq] using hc
    rw [colValL_append_singleton]
    cases ls with
    | nil =>
      have hv : colValL [] = 0 := rfl
      rw [hv]
      have harg : 0 * 26 + (c.toNat - 64) - 1 = c.toNat - 65 := by omega
      rw [harg]
      unfold colLabel
      rw [dif_pos (by omega)]
      have hch : 65 + (c.toNat - 65) = c.toNat := by omega
      rw [hch, Char.ofNat_toNat]
      simp
    | cons a as =>
      have hall2 : (a :: as).all isUpperAlpha = true := by
        have := List.all_eq_true.mp hall
        exact List.all_eq_true.mpr (fun x hx => this x (by
          rcases List.mem_cons.mp hx with h | h
          · simp [h]
          · simp [h]))
      have hv1 : 1 ≤ colValL (a :: as) := colValL_ge_one _ (by simp) hall2
      have harg : colValL (a :: as) * 26 + (c.toNat - 64) - 1 =
          (c.toNat - 65) + (colValL (a :: as) - 1 + 1) * 26 := by omega
      rw [harg]
      unfold colLabel
      rw [dif_neg (by omega)]
      have hmod : ((c.toNat - 65) + (colValL (a :: as) - 1 + 1) * 26) % 26 = c.toNat - 65 := by
        rw [Nat.add_mul_mod_self_right]
        exact Nat.mod_eq_of_lt (by omega)
      have hdiv : ((c.toNat - 65) + (colValL (a :: as) - 1 + 1) * 26) / 26 - 1 =
          colValL (a :: as) - 1 := by
        rw [Nat.add_mul_div_right _ _ (by omega : 0 < 26)]
        rw [Nat.div_eq_of_lt (by omega)]
        omega
      rw [hmod, hdiv, ih (by simp) hall2]
      have hch : 65 + (c.toNat - 65) = c.toNat := by omega
      rw [hch, Char.ofNat_toNat]

theorem natDecL_digitsValL (ds : List Char) (hne : ds ≠ [])
    (hall : ds.all isDigitCh = true) (hhd : ds.headD '0' ≠ '0') :
    natDecL (digitsValL ds) = ds := by
  induction ds using List.reverseRecOn with
  | nil => exact absurd rfl hne
  | append_singleton ds d ih =>
    have hd : isDigitCh d = true := by
      have := List.all_eq_true.mp hall
      exact this d (by simp)
    have hdb : 48 ≤ d.toNat ∧ d.toNat ≤ 57 := by
      simpa only [isDigitCh, Bool.and_eq_true, decide_eq_true_eq] using hd
    rw [digitsValL_append_singleton]
    cases ds with
    | nil =>
      have hv : digitsValL [] = 0 := rfl
      rw [hv]
      have harg : 0 * 10 + (d.toNat - 48) = d.toNat - 48 := by omega
      rw [harg]
      unfold natDecL
      rw [dif_pos (by omega)]
      have hch : 48 + (d.toNat - 48) = d.toNat := by omega
      rw [hch, Char.ofNat_toNat]
      simp
    | cons a as =>
      have hall2 : (a :: as).all isDigitCh = true := by
        have := List.all_eq_true.mp hall
        exact List.all_eq_true.mpr (fun x hx => this x (by
          rcases List.mem_cons.mp hx with h | h
          · simp [h]
          · simp [h]))
      have hhd2 : (a :: as).headD '0' ≠ '0' := by
        simpa using hhd
      have hv1 : 1 ≤ digitsValL (a :: as) := digitsValL_ge_one _ (by simp) hall2 hhd2
      have harg : digitsValL (a :: as) * 10 + (d.toNat - 48) =
          (d.toNat - 48) + digitsValL (a :: as) * 10 := by omega
      rw [harg]
      unfold natDecL
      rw [dif_neg (by omega)]
      have hmod : ((d.toNat - 48) + digitsValL (a :: as) * 10) % 10 = d.toNat - 48 := by
        rw [Nat.add_mul_mod_self_right]
        exact Nat.mod_eq_of_lt (by omega)
      have hdiv : ((d.toNat - 48) + digitsValL (a :: as) * 10) / 10 = digitsValL (a :: as) := by
        rw [Nat.add_mul_div_right _ _ (by omega : 0 < 10)]
        rw [Nat.div_eq_of_lt (by omega)]
        omega
      rw [hmod, hdiv, ih (by simp) hall2 hhd2]
      have hch : 48 + (d.toNat - 48) = d.toNat := by omega
      rw [hch, Char.ofNat_toNat]

instance instDecEqExcept {e a : Type} [DecidableEq e] [DecidableEq a] :
    DecidableEq (Except e a) := fun x y =>
  match x, y with
  | .error u, .error v =>
    if h : u = v then isTrue (by rw [h]) else isFalse (fun hc => h (by cases hc; rfl))
  | .ok u, .ok v =>
    if h : u = v then isTrue (by rw [h]) else isFalse (fun hc => h (by cases hc; rfl))
  | .error _, .ok _ => isFalse (fun hc => Except.noConfusion hc)
  | .ok _, .error _ => isFalse (fun hc => Except.noConfusion hc)

theorem colLabel_eval (ls : List Char) (n : Nat) (h1 : ls ≠ [])
    (h2 : ls.all isUpperAlpha = true) (h3 : colValL ls = n + 1) :
    colLabel n = ls := by
  have h := colLabel_colValL ls h1 h2
  rw [h3] at h
  simpa using h

theorem natDecL_eval (ds : List Char) (n : Nat) (h1 : ds ≠ [])
    (h2 : ds.all isDigitCh = true) (h3 : ds.headD '0' ≠ '0')
    (h4 : digitsValL ds = n) : natDecL n = ds := by
  have h := natDecL_digitsValL ds h1 h2 h3
  rw [h4] at h
  exact h

/-- C1: for every label matching `[A-Z]+[1-9][0-9]*`, `parseCell` decodes it to
a zero-based `(col, row)` pair and re-encoding through `colLabel` and the
decimal row rendering reproduces the original label; in particular
`A1 → (0,0)`, `Z1 → (25,0)`, `AA1 → (26,0)`, `AL8 → (37,7)` and back. -/
theorem c1_label_roundtrip :
    (∀ l : List Char, matchesLabelB l = true →
      ∃ c r, parseCell l = .ok (c, r) ∧ colLabel c ++ natDecL (r + 1) = l) ∧
    parseCell ("A1").data = .ok (0, 0) ∧ colLabel 0 ++ natDecL (0 + 1) = ("A1").data ∧
    parseCell ("Z1").data = .ok (25, 0) ∧ colLabel 25 ++ natDecL (0 + 1) = ("Z1").data ∧
    parseCell ("AA1").data = .ok (26, 0) ∧ colLabel 26 ++ natDecL (0 + 1) = ("AA1").data ∧
    parseCell ("AL8").data = .ok (37, 7) ∧ colLabel 37 ++ natDecL (7 + 1) = ("AL8").data := by
  have eA : colLabel 0 = ("A").data := colLabel_eval _ _ (by decide) (by decide) (by decide)
  have eZ : colLabel 25 = ("Z").data := colLabel_eval _ _ (by decide) (by decide) (by decide)
  have eAA : colLabel 26 = ("AA").data := colLabel_eval _ _ (by decide) (by decide) (by decide)
  have eAL : colLabel 37 = ("AL").data := colLabel_eval _ _ (by decide) (by decide) (by decide)
  have e1 : natDecL 1 = ("1").data := natDecL_eval _ _ (by decide) (by decide) (by decide) (by decide)
  have e8 : natDecL 8 = ("8").data := natDecL_eval _ _ (by decide) (by decide) (by decide) (by decide)
  refine ⟨?_, by decide, by rw [eA, e1]; decide, by decide, by rw [eZ, e1]; decide,
    by decide, by rw [eAA, e1]; decide, by decide, by rw [eAL, e8]; decide⟩
  intro l hm
  simp only [matchesLabelB, Bool.and_eq_true, decide_eq_true_eq] at hm
  obtain ⟨⟨⟨hls, hds⟩, hdig⟩, hhd⟩ := hm
  have hsplit : l.takeWhile isUpperAlpha ++ l.dropWhile isUpperAlpha = l :=
    List.takeWhile_append_dropWhile isUpperAlpha l
  have hlsall : (l.takeWhile isUpperAlpha).all isUpperAlpha = true :=
    List.all_eq_true.mpr (fun x hx => List.mem_takeWhile_imp hx)
  have hmem : ∀ c ∈ l, isUpperAlpha c = true ∨ isDigitCh c = true := by
    intro c hc
    rw [← hsplit] at hc
    rcases List.mem_append.mp hc with h | h
    · exact Or.inl (List.all_eq_true.mp hlsall c h)
    · exact Or.inr (List.all_eq_true.mp hdig c h)
  have htrim : trimL l = l := trimL_eq_self l (fun c hc => by
    rcases hmem c hc with h | h
    · exact not_space_of_upperAlpha c h
    · exact not_space_of_digit c h)
  have hup : l.map upChar = l := map_upChar_eq_self l (fun c hc => by
    rcases hmem c hc with h | h
    · exact upChar_of_upperAlpha c h
    · exact upChar_of_digit c h)
  have hrow : 1 ≤ digitsValL (l.dropWhile isUpperAlpha) :=
    digitsValL_ge_one _ hds hdig hhd
  refine ⟨colValL (l.takeWhile isUpperAlpha) - 1, digitsValL (l.dropWhile isUpperAlpha) - 1,
    ?_, ?_⟩
  · unfold parseCell parseCellCore
    rw [htrim, hup]
    rw [if_neg (by push_neg; exact ⟨hls, hds, by simp [hdig]⟩)]
    rw [if_neg (by omega)]
  · have h1 : colLabel (colValL (l.takeWhile isUpperAlpha) - 1) = l.takeWhile isUpperAlpha :=
      colLabel_colValL _ hls hlsall
    have h2 : digitsValL (l.dropWhile isUpperAlpha) - 1 + 1 =
        digitsValL (l.dropWhile isUpperAlpha) := by omega
    rw [h1, h2, natDecL_digitsValL _ hds hdig hhd, hsplit]

/-- Witness for C1 at the concrete label `AL8`. -/
theorem c1_label_roundtrip_witness :
    ∃ c r, parseCell ("AL8").data = .ok (c, r) ∧
      colLabel c ++ natDecL (r + 1) = ("AL8").data :=
  c1_label_roundtrip.1 (("AL8").data) (by decide)

/-! ### Case- and whitespace-insensitivity of the public coordinate inputs -/

/-- Zone name reported by `runSingleZoneScanWithRetry`:
`${String(zone.start || '').toUpperCase()}:${String(zone.end || '').toUpperCase()}`. -/
def zoneName (zstart zend : Option (List Char)) : List Char :=
  (zstart.getD []).map upChar ++ (":").data ++ (zend.getD []).map upChar

theorem dropWhile_idem (p : Char → Bool) (l : List Char) :
    (l.dropWhile p).dropWhile p = l.dropWhile p := by
  induction l with
  | nil => rfl
  | cons c cs ih =>
    by_cases h : p c = true
    · simp [List.dropWhile, h, ih]
    · simp only [Bool.not_eq_true] at h
      simp [List.dropWhile, h]

theorem dropWhile_cons_false (p : Char → Bool) (l : List Char) (c : Char) (cs : List Char)
    (h : l.dropWhile p = c :: cs) : p c = false := by
  induction l with
  | nil => exact absurd h (by simp)
  | cons a as ih =>
    by_cases ha : p a = true
    · exact ih (by simpa [List.dropWhile, ha] using h)
    · simp only [Bool.not_eq_true] at ha
      rw [List.dropWhile_cons_of_neg (by simp [ha])] at h
      cases h
      exact ha

theorem dropWhile_eq_self_of_head_false (p : Char → Bool) (l : List Char)
    (h : ∀ c cs, l = c :: cs → p c = false) : l.dropWhile p = l := by
  cases l with
  | nil => rfl
  | cons c cs => rw [List.dropWhile_cons_of_neg (by simp [h c cs rfl])]

theorem trimL_idem (s : List Char) : trimL (trimL s) = trimL s := by
  unfold trimL
  have hY : ((s.dropWhile isJsSpace).reverse.dropWhile isJsSpace).reverse.reverse.dropWhile
      isJsSpace = (s.dropWhile isJsSpace).reverse.dropWhile isJsSpace := by
    rw [List.reverse_reverse]
    exact dropWhile_idem _ _
  have hfront : (((s.dropWhile isJsSpace).reverse.dropWhile isJsSpace).reverse).dropWhile
      isJsSpace = ((s.dropWhile isJsSpace).reverse.dropWhile isJsSpace).reverse := by
    apply dropWhile_eq_self_of_head_false
    intro c cs hc
    -- the head of the fully trimmed string is the head of `s.dropWhile isJsSpace`
    have hsplit : (s.dropWhile isJsSpace).reverse.takeWhile isJsSpace ++
        (s.dropWhile isJsSpace).reverse.dropWhile isJsSpace = (s.dropWhile isJsSpace).reverse :=
      List.takeWhile_append_dropWhile isJsSpace _
    have hX0 := congrArg List.reverse hsplit
    rw [List.reverse_append, List.reverse_reverse] at hX0
    have hX : s.dropWhile isJsSpace =
        ((s.dropWhile isJsSpace).reverse.dropWhile isJsSpace).reverse ++
        ((s.dropWhile isJsSpace).reverse.takeWhile isJsSpace).reverse := hX0.symm
    rw [hc] at hX
    have hX2 : s.dropWhile isJsSpace = c :: (cs ++
        ((s.dropWhile isJsSpace).reverse.takeWhile isJsSpace).reverse) := by
      simpa using hX
    exact dropWhile_cons_false isJsSpace s c _ hX2
  rw [hfront, hY]

theorem upChar_idem (c : Char) : upChar (upChar c) = upChar c := by
  unfold upChar
  by_cases h : 97 ≤ c.toNat ∧ c.toNat ≤ 122
  · rw [if_pos h]
    have ht : (Char.ofNat (c.toNat - 32)).toNat = c.toNat - 32 :=
      toNat_ofNat_small _ (by omega)
    rw [if_neg (by omega)]
  · rw [if_neg h, if_neg h]

theorem isJsSpace_upChar (c : Char) : isJsSpace (upChar c) = isJsSpace c := by
  unfold upChar
  by_cases h : 97 ≤ c.toNat ∧ c.toNat ≤ 122
  · rw [if_pos h]
    have ht : (Char.ofNat (c.toNat - 32)).toNat = c.toNat - 32 :=
      toNat_ofNat_small _ (by omega)
    have hA : isJsSpace c = false := by
      simp only [isJsSpace, Bool.or_eq_false_iff, decide_eq_false_iff_not]
      omega
    have hB : isJsSpace (Char.ofNat (c.toNat - 32)) = false := by
      simp only [isJsSpace, ht, Bool.or_eq_false_iff, decide_eq_false_iff_not]
      omega
    rw [hA, hB]
  · rw [if_neg h]

theorem map_upChar_idem (l : List Char) : (l.map upChar).map upChar = l.map upChar := by
  induction l with
  | nil => rfl
  | cons c cs ih => simp only [List.map_cons, upChar_idem, ih]

theorem dropWhile_map_upChar (l : List Char) :
    (l.map upChar).dropWhile isJsSpace = (l.dropWhile isJsSpace).map upChar := by
  induction l with
  | nil => rfl
  | cons c cs ih =>
    by_cases h : isJsSpace c = true
    · rw [List.map_cons, List.dropWhile_cons_of_pos (by simp [isJsSpace_upChar, h]),
        List.dropWhile_cons_of_pos (by simp [h]), ih]
    · simp only [Bool.not_eq_true] at h
      rw [List.map_cons, List.dropWhile_cons_of_neg (by simp [isJsSpace_upChar, h]),
        List.dropWhile_cons_of_neg (by simp [h]), List.map_cons]

theorem trimL_map_upChar (l : List Char) :
    trimL (l.map upChar) = (trimL l).map upChar := by
  unfold trimL
  rw [dropWhile_map_upChar, ← List.map_reverse, dropWhile_map_upChar, List.map_reverse]

theorem parseCellCore_ok_iff (i1 i2 t : List Char) (p : Nat × Nat) :
    parseCellCore i1 t = .ok p ↔ parseCellCore i2 t = .ok p := by
  unfold parseCellCore
  by_cases h1 : (t.takeWhile isUpperAlpha) = [] ∨ (t.dropWhile isUpperAlpha) = [] ∨
      ¬ ((t.dropWhile isUpperAlpha).all isDigitCh = true)
  · rw [if_pos h1, if_pos h1]
    exact ⟨fun hc => absurd hc (by simp), fun hc => absurd hc (by simp)⟩
  · rw [if_neg h1, if_neg h1]
    by_cases h2 : digitsValL (t.dropWhile isUpperAlpha) ≤ 0
    · rw [if_pos h2, if_pos h2]
      exact ⟨fun hc => absurd hc (by simp), fun hc => absurd hc (by simp)⟩
    · rw [if_neg h2, if_neg h2]

/-- C10: grid labels are accepted case-insensitively and modulo surrounding
whitespace at every coordinate input (both screenshot ranges and scan zones go
through `parseCell`): trimming or uppercasing the input never changes which
cell a label denotes, `b2` and ` B2 ` denote the same cell as `B2`, labels
failing the letters-then-digits pattern or naming row `0` are rejected with an
invalid-coordinate error, and zone names are reported in uppercased
`START:END` form. -/
theorem c10_case_insensitive_labels :
    (∀ s : List Char, ∀ p : Nat × Nat,
      parseCell (trimL s) = .ok p ↔ parseCell s = .ok p) ∧
    (∀ s : List Char, ∀ p : Nat × Nat,
      parseCell (s.map upChar) = .ok p ↔ parseCell s = .ok p) ∧
    parseCell ("b2").data = .ok (1, 1) ∧
    parseCell (" B2 ").data = .ok (1, 1) ∧
    parseCell ("B2").data = .ok (1, 1) ∧
    parseCell ("B0").data = .error (invalidRowMsg (("B0").data)) ∧
    parseCell ("2B").data = .error (invalidCoordMsg (("2B").data)) ∧
    (∀ zs ze : List Char,
      zoneName (some zs) (some ze) = (zs ++ (":").data ++ ze).map upChar) := by
  refine ⟨?_, ?_, by decide, by decide, by decide, by decide, by decide, ?_⟩
  · intro s p
    unfold parseCell
    rw [trimL_idem]
    exact parseCellCore_ok_iff _ _ _ _
  · intro s p
    unfold parseCell
    rw [trimL_map_upChar, map_upChar_idem]
    exact parseCellCore_ok_iff _ _ _ _
  · intro zs ze
    unfold zoneName
    simp only [Option.getD_some, List.map_append]
    rfl

/-! ### GridCompositor geometry (`runGridScreenshot` / `buildGridOverlaySvg`) -/

def CELL_SIZE : Nat := 100

def LABEL_MARGIN : Nat := 50

/-- The per-cell badge labels drawn by `buildGridOverlaySvg`, in drawing order
(row loop outside, column loop inside): `${colLabel(colOffset + c)}${rowOffset + r + 1}`. -/
def gridBadgeLabels (cols rows colOffset rowOffset : Nat) : List (List Char) :=
  (List.range rows).flatMap (fun r =>
    (List.range cols).map (fun c =>
      colLabel (colOffset + c) ++ natDecL (rowOffset + r + 1)))

/-- Geometry of the image produced by `runGridScreenshot`: outer dimensions,
content (non-margin) dimensions, the pixel rectangle of the original frame
shown in the content area, and the badge labels of the overlay drawn onto it. -/
structure GridShotGeom where
  totalW : Nat
  totalH : Nat
  contentWidth : Nat
  contentHeight : Nat
  contentLeft : Nat
  contentTop : Nat
  contentRight : Nat
  contentBottom : Nat
  badgeLabels : List (List Char)
deriving DecidableEq

/-- The geometry computed by `runGridScreenshot` on a `width × height` capture
for an optional `(start, end)` crop range.  Mirrors the source: `cols/rows`
are `Math.ceil(size / CELL_SIZE)`; with a (truthy) range the pixel rectangle
bounded by the range is clamped to the frame, extracted, padded by
`LABEL_MARGIN`, and relabeled through `buildGridOverlaySvg` with
`colOffset = minCol`, `rowOffset = minRow`; otherwise the full frame is
labeled with offsets `0`.  JS `start && end` short-circuits on empty strings,
so an empty label falls back to the full-frame path. -/
def runGridScreenshotGeom (width height : Nat)
    (range : Option (List Char × List Char)) : Except (List Char) GridShotGeom :=
  if width = 0 ∨ height = 0 then
    .error (("Failed to determine screenshot dimensions.").data)
  else
    let cols := (width + CELL_SIZE - 1) / CELL_SIZE
    let rows := (height + CELL_SIZE - 1) / CELL_SIZE
    let full : GridShotGeom :=
      ⟨width + LABEL_MARGIN, height + LABEL_MARGIN, width, height,
        0, 0, width, height, gridBadgeLabels cols rows 0 0⟩
    match range with
    | none => .ok full
    | some (s, e) =>
      if s = [] ∨ e = [] then .ok full
      else do
        let fromC ← parseCell s
        let toC ← parseCell e
        let minCol := min fromC.1 toC.1
        let maxCol := max fromC.1 toC.1
        let minRow := min fromC.2 toC.2
        let maxRow := max fromC.2 toC.2
        let contentLeft := minCol * CELL_SIZE
        let contentTop := minRow * CELL_SIZE
        let contentRight := min width ((maxCol + 1) * CELL_SIZE)
        let contentBottom := min height ((maxRow + 1) * CELL_SIZE)
        let cropWidth := max 1 (contentRight - contentLeft)
        let cropHeight := max 1 (contentBottom - contentTop)
        let cropCols := (cropWidth + CELL_SIZE - 1) / CELL_SIZE
        let cropRows := (cropHeight + CELL_SIZE - 1) / CELL_SIZE
        .ok ⟨cropWidth + LABEL_MARGIN, cropHeight + LABEL_MARGIN, cropWidth, cropHeight,
          contentLeft, contentTop, contentRight, contentBottom,
          gridBadgeLabels cropCols cropRows minCol minRow⟩

theorem gridBadgeLabels_b2_d4 :
    gridBadgeLabels 3 3 1 1 =
      [("B2").data, ("C2").data, ("D2").data,
       ("B3").data, ("C3").data, ("D3").data,
       ("B4").data, ("C4").data, ("D4").data] := by
  have eB : colLabel 1 = ("B").data := colLabel_eval _ _ (by decide) (by decide) (by decide)
  have eC : colLabel 2 = ("C").data := colLabel_eval _ _ (by decide) (by decide) (by decide)
  have eD : colLabel 3 = ("D").data := colLabel_eval _ _ (by decide) (by decide) (by decide)
  have e2 : natDecL 2 = ("2").data :=
    natDecL_eval _ _ (by decide) (by decide) (by decide) (by decide)
  have e3 : natDecL 3 = ("3").data :=
    natDecL_eval _ _ (by decide) (by decide) (by decide) (by decide)
  have e4 : natDecL 4 = ("4").data :=
    natDecL_eval _ _ (by decide) (by decide) (by decide) (by decide)
  unfold gridBadgeLabels
  norm_num [List.range_succ]
  rw [eB, eC, eD, e2, e3, e4]
  decide

/-- C2: a grid screenshot for the range `B2:D4` on a `1000 × 800` capture at
device pixel ratio 1 has a content area that is exactly the `300 × 300` pixel
span `[100, 400) × [100, 400)` of columns `B`–`D` and rows `2`–`4` (plus the
fixed 50-pixel top/left label margin), and its per-cell badges are exactly the
offset-shifted labels `B2` … `D4`, with the crop's first cell labeled `B2`. -/
theorem c2_grid_screenshot_b2_d4 :
    runGridScreenshotGeom 1000 800 (some (("B2").data, ("D4").data)) =
      .ok ⟨350, 350, 300, 300, 100, 100, 400, 400,
        [("B2").data, ("C2").data, ("D2").data,
         ("B3").data, ("C3").data, ("D3").data,
         ("B4").data, ("C4").data, ("D4").data]⟩ ∧
    ((runGridScreenshotGeom 1000 800 (some (("B2").data, ("D4").data))).map
      (fun g => g.badgeLabels.headD [])) = .ok (("B2").data) := by
  have h : runGridScreenshotGeom 1000 800 (some (("B2").data, ("D4").data)) =
      .ok ⟨350, 350, 300, 300, 100, 100, 400, 400, gridBadgeLabels 3 3 1 1⟩ := by
    rfl
  rw [h, gridBadgeLabels_b2_d4]
  exact ⟨rfl, rfl⟩

/-! ### The gridScreenshot bridge result (what the caller receives) -/

/-- The single result object the worker writes to stdout for the
`gridScreenshot` op: `result = { imageBase64: image.toString('base64') }`. -/
def gridScreenshotOpResult (imageBase64 : List Char) : List (List Char × List Char) :=
  [((("imageBase64").data), imageBase64)]

/-- Client-side unwrapping in `gridScreenshotInternal`: fail when
`result?.imageBase64` is falsy (absent or empty), otherwise decode and return
just the image bytes. -/
def gridScreenshotClientResult (result : List (List Char × List Char)) :
    Except (List Char) (List Char) :=
  match result.lookup (("imageBase64").data) with
  | some img =>
    if img = [] then .error (("Bridge returned no image for gridScreenshot.").data)
    else .ok img
  | none => .error (("Bridge returned no image for gridScreenshot.").data)

/-- C3 counterexample: the worker result for a (cropped) gridScreenshot holds
exactly the key `imageBase64`; it carries no `minCol` or `minRow` field, so
the zero-based crop offset is not delivered to the caller. -/
theorem c3_offset_counterexample :
    (gridScreenshotOpResult (("IMG").data)).map Prod.fst = [("imageBase64").data] ∧
    (gridScreenshotOpResult (("IMG").data)).lookup (("minCol").data) = none ∧
    (gridScreenshotOpResult (("IMG").data)).lookup (("minRow").data) = none := by
  decide

/-- C3 amended: the result delivered to the caller for a cropped
grid-screenshot request consists solely of the labeled image (base64); no
column/row offset field accompanies it. -/
theorem c3_result_image_only (img : List Char) :
    (gridScreenshotOpResult img).map Prod.fst = [("imageBase64").data] ∧
    (gridScreenshotOpResult img).lookup (("minCol").data) = none ∧
    (gridScreenshotOpResult img).lookup (("minRow").data) = none ∧
    (img ≠ [] → gridScreenshotClientResult (gridScreenshotOpResult img) = .ok img) := by
  refine ⟨rfl, rfl, rfl, ?_⟩
  intro h
  show (if img = [] then
      Except.error (("Bridge returned no image for gridScreenshot.").data)
    else Except.ok img) = Except.ok img
  rw [if_neg h]

/-- Witness for the amended C3 statement at a concrete image payload. -/
theorem c3_result_image_only_witness :
    gridScreenshotClientResult (gridScreenshotOpResult (("IMG").data)) =
      .ok (("IMG").data) :=
  (c3_result_image_only (("IMG").data)).2.2.2 (by decide)

/-! ### CoordinateSpaceMapper (`runSingleZoneScanWithRetry` evaluate preamble) -/

/-- Device pixel ratio as the page script derives it:
`Math.max(0.01, Number(window.devicePixelRatio) || 1)`.  A zero raw reading
(`|| 1`) falls back to 1. -/
def normDpr (raw : ℚ) : ℚ := max (1 / 100) (if raw = 0 then 1 else raw)

/-- CSS-space size as derived: `Math.max(1, Number(size) || 1)`. -/
def normCssSize (raw : ℚ) : ℚ := max 1 (if raw = 0 then 1 else raw)

/-- Image-space size: `Math.max(1, cssSpaceSize * dpr)`. -/
def imageSpaceSize (css dpr : ℚ) : ℚ := max 1 (css * dpr)

/-- Per-axis scale: `imageSpaceSize / cssSpaceSize`. -/
def scaleAxis (css dpr : ℚ) : ℚ := imageSpaceSize css dpr / css

/-- The scale formula exactly as the specification words it:
`(cssSpaceSize × devicePixelRatio) / cssSpaceSize` with no further clamping.
Kept separate so the code's derivation can be compared against it. -/
def scaleAxisSpec (css dpr : ℚ) : ℚ := (css * dpr) / css

/-- An axis-aligned rectangle with rational coordinates. -/
structure QRect where
  left : ℚ
  right : ℚ
  top : ℚ
  bottom : ℚ
deriving DecidableEq

theorem qrect_ext (a b : QRect) (h1 : a.left = b.left) (h2 : a.right = b.right)
    (h3 : a.top = b.top) (h4 : a.bottom = b.bottom) : a = b := by
  cases a
  cases b
  cases h1
  cases h2
  cases h3
  cases h4
  rfl

/-- The requested zone rectangle in image-pixel space:
`{minCol*cellSize, (maxCol+1)*cellSize, minRow*cellSize, (maxRow+1)*cellSize}`. -/
def zoneRectImage (minCol maxCol minRow maxRow : Nat) : QRect :=
  ⟨(minCol * CELL_SIZE : Nat), ((maxCol + 1) * CELL_SIZE : Nat),
   (minRow * CELL_SIZE : Nat), ((maxRow + 1) * CELL_SIZE : Nat)⟩

/-- Conversion of an image-space rectangle to CSS space: divide each axis by
its scale. -/
def mapZoneRect (zr : QRect) (scaleX scaleY : ℚ) : QRect :=
  ⟨zr.left / scaleX, zr.right / scaleX, zr.top / scaleY, zr.bottom / scaleY⟩

/-- C4 counterexample: with a CSS-space size of `1` (already `≥ 1`, so the
claimed clamp leaves it alone) and a device pixel ratio of `1/2` (away from
`0`, so unclamped), the code's scale is `1` — the extra
`Math.max(1, css*dpr)` on the numerator fires — while the claimed formula
`(css*dpr)/css` gives `1/2`. -/
theorem c4_scale_counterexample :
    normCssSize 1 = 1 ∧ normDpr (1 / 2) = 1 / 2 ∧
    scaleAxis 1 (1 / 2) = 1 ∧ scaleAxisSpec 1 (1 / 2) = 1 / 2 ∧
    scaleAxis 1 (1 / 2) ≠ scaleAxisSpec 1 (1 / 2) := by
  refine ⟨?_, ?_, ?_, ?_, ?_⟩
  · unfold normCssSize
    norm_num
  · unfold normDpr
    norm_num
  · unfold scaleAxis imageSpaceSize
    norm_num
  · unfold scaleAxisSpec
    norm_num
  · unfold scaleAxis scaleAxisSpec imageSpaceSize
    norm_num

/-- C4 amended: the per-axis scale is `max 1 (cssSpaceSize × dpr) / cssSpaceSize`
— both the CSS-space size (clamped to a minimum of 1, with a zero reading
falling back to 1 first) and the image-space product are clamped, and the
device pixel ratio is clamped to at least 1/100; consequently at device pixel
ratio 1 the zone rectangle is numerically unchanged between image space and
CSS space, and at ratio 2 an image-space rectangle of width 200 maps to a
CSS-space width of 100. -/
theorem c4_scale_mapping :
    (∀ css dpr : ℚ, scaleAxis css dpr = max 1 (css * dpr) / css) ∧
    (∀ rawX rawY : ℚ, ∀ zr : QRect,
      mapZoneRect zr (scaleAxis (normCssSize rawX) (normDpr 1))
        (scaleAxis (normCssSize rawY) (normDpr 1)) = zr) ∧
    (∀ rawX : ℚ, ∀ sy : ℚ, ∀ zr : QRect, zr.right - zr.left = 200 →
      (mapZoneRect zr (scaleAxis (normCssSize rawX) (normDpr 2)) sy).right -
        (mapZoneRect zr (scaleAxis (normCssSize rawX) (normDpr 2)) sy).left = 100) := by
  have hcss : ∀ raw : ℚ, 1 ≤ normCssSize raw := by
    intro raw
    exact le_max_left _ _
  have hdpr1 : normDpr 1 = 1 := by
    unfold normDpr
    norm_num
  have hdpr2 : normDpr 2 = 2 := by
    unfold normDpr
    norm_num
  have hscale1 : ∀ raw : ℚ, scaleAxis (normCssSize raw) (normDpr 1) = 1 := by
    intro raw
    unfold scaleAxis imageSpaceSize
    rw [hdpr1, mul_one, max_eq_right (hcss raw)]
    exact div_self (by have := hcss raw; linarith)
  have hscale2 : ∀ raw : ℚ, scaleAxis (normCssSize raw) (normDpr 2) = 2 := by
    intro raw
    unfold scaleAxis imageSpaceSize
    rw [hdpr2]
    have h1 : (1 : ℚ) ≤ normCssSize raw * 2 := by have := hcss raw; linarith
    rw [max_eq_right h1, mul_comm, mul_div_assoc,
      div_self (by have := hcss raw; linarith), mul_one]
  refine ⟨?_, ?_, ?_⟩
  · intro css dpr
    unfold scaleAxis imageSpaceSize
    rfl
  · intro rawX rawY zr
    rw [mapZoneRect, hscale1, hscale1]
    exact qrect_ext _ _ (div_one _) (div_one _) (div_one _) (div_one _)
  · intro rawX sy zr h
    rw [mapZoneRect, hscale2]
    show zr.right / 2 - zr.left / 2 = 100
    rw [div_sub_div_same, h]
    norm_num

/-- Witness for the amended C4 statement: a 200-wide image-space rectangle,
CSS raw size 500, device pixel ratio 2 maps to CSS width 100. -/
theorem c4_scale_mapping_witness :
    (mapZoneRect ⟨0, 200, 0, 100⟩ (scaleAxis (normCssSize 500) (normDpr 2)) 1).right -
      (mapZoneRect ⟨0, 200, 0, 100⟩ (scaleAxis (normCssSize 500) (normDpr 2)) 1).left =
      100 :=
  c4_scale_mapping.2.2 500 1 ⟨0, 200, 0, 100⟩ (by simp)

/-! ### ZoneElementScanner (the in-page evaluate callback) -/

/-- Collapse whitespace runs to single spaces: `replace(/\s+/g, ' ')`. -/
def collapseWsAux : Bool → List Char → List Char
  | _, [] => []
  | prevSpace, c :: rest =>
    if isJsSpace c then
      if prevSpace then collapseWsAux true rest
      else ' ' :: collapseWsAux true rest
    else c :: collapseWsAux false rest

def collapseWs (cs : List Char) : List Char := collapseWsAux false cs

/-- First truthy (non-empty) string of a fallback chain (`a || b || c || ''`). -/
def firstTruthy : List (List Char) → List Char
  | [] => []
  | x :: xs => if x = [] then firstTruthy xs else x

/-- `s || undefined`. -/
def orUndef (s : List Char) : Option (List Char) :=
  if s = [] then none else some s

/-- A DOM element candidate as observed by the scan script.  Attribute reads
are modelled as fields: `role` is `getAttribute('role')` (`none` = null),
`tabindexNum` is the numeric value of the `tabindex` attribute (`none` when
the attribute is absent or not a number — both make the `Number(t) >= 0` test
false), string properties use `[]` for the empty string, and `selector` is
the stable selector `buildSelector` synthesizes from the element's ancestor
chain (opaque to the geometric model). -/
structure ScanCandidate where
  isHtmlElement : Bool
  tag : List Char
  href : List Char
  role : Option (List Char)
  contenteditable : Bool
  tabindexNum : Option ℚ
  hasOnclick : Bool
  left : ℚ
  top : ℚ
  width : ℚ
  height : ℚ
  innerText : List Char
  value : List Char
  placeholder : List Char
  ariaLabel : List Char
  typeAttr : List Char
  selector : List Char

/-- `isInteractive` from the scan script. -/
def isInteractive (c : ScanCandidate) : Bool :=
  if c.tag = ("BUTTON").data ∨ c.tag = ("INPUT").data ∨ c.tag = ("SELECT").data ∨
      c.tag = ("TEXTAREA").data ∨ c.tag = ("SUMMARY").data then true
  else if c.tag = ("A").data ∧ c.href ≠ [] then true
  else if (match c.role with
    | some r => decide (r ≠ []) &&
        (decide (r = ("button").data) || decide (r = ("link").data) ||
         decide (r = ("checkbox").data) || decide (r = ("radio").data) ||
         decide (r = ("menuitem").data) || decide (r = ("tab").data) ||
         decide (r = ("switch").data) || decide (r = ("combobox").data))
    | none => false) = true then true
  else if c.contenteditable then true
  else if (match c.tabindexNum with
    | some q => decide (0 ≤ q)
    | none => false) = true then true
  else if c.hasOnclick then true
  else false

/-- `getText` from the scan script: first truthy of
innerText / value / placeholder / aria-label, whitespace collapsed, trimmed,
sliced to 60 characters. -/
def getText (c : ScanCandidate) : List Char :=
  (trimL (collapseWs (firstTruthy [c.innerText, c.value, c.placeholder, c.ariaLabel]))).take 60

/-- The element record the scan pushes into its results. -/
structure ElemInfo where
  selector : List Char
  tag : List Char
  text : List Char
  href : Option (List Char)
  placeholder : Option (List Char)
  typeAttr : Option (List Char)
  role : Option (List Char)
  label : Option (List Char)
deriving DecidableEq

def mkElemInfo (c : ScanCandidate) : ElemInfo :=
  ⟨c.selector, c.tag, getText c,
   if c.tag = ("A").data then orUndef c.href else none,
   orUndef c.placeholder, orUndef c.typeAttr,
   (match c.role with | some r => orUndef r | none => none),
   orUndef c.ariaLabel⟩

/-- The element rectangle in the requested coordinate space: document-relative
(scroll-adjusted) for `page`, viewport-relative otherwise; DOMRect sides are
`left`, `left + width`, `top`, `top + height`. -/
def rectInSpace (space : List Char) (scrollX scrollY : ℚ) (c : ScanCandidate) : QRect :=
  if space = ("page").data then
    ⟨c.left + scrollX, c.left + c.width + scrollX, c.top + scrollY, c.top + c.height + scrollY⟩
  else ⟨c.left, c.left + c.width, c.top, c.top + c.height⟩

/-- `intersects` from the scan script:
`a.left < b.right && a.right > b.left && a.top < b.bottom && a.bottom > b.top`. -/
def intersectsB (a b : QRect) : Bool :=
  decide (a.left < b.right) && decide (a.right > b.left) &&
  decide (a.top < b.bottom) && decide (a.bottom > b.top)

/-- One candidate step of the scan loop: skip non-HTML elements,
non-interactive elements, empty rectangles, rectangles not intersecting the
zone, and empty or already-seen selectors; otherwise push the element record
and remember its selector. -/
def scanStep (space : List Char) (scrollX scrollY : ℚ) (zone : QRect)
    (st : List ElemInfo × List (List Char)) (c : ScanCandidate) :
    List ElemInfo × List (List Char) :=
  if c.isHtmlElement = false then st
  else if isInteractive c = false then st
  else if c.width ≤ 0 ∨ c.height ≤ 0 then st
  else if intersectsB zone (rectInSpace space scrollX scrollY c) = false then st
  else if c.selector = [] ∨ c.selector ∈ st.2 then st
  else (st.1 ++ [mkElemInfo c], st.2 ++ [c.selector])

/-- Code-point comparison standing in for `String.prototype.localeCompare`
(sign-valued). -/
def lexCmp : List Char → List Char → Int
  | [], [] => 0
  | [], _ :: _ => -1
  | _ :: _, [] => 1
  | a :: as, b :: bs =>
    if a.toNat < b.toNat then -1
    else if b.toNat < a.toNat then 1
    else lexCmp as bs

/-- The result sort comparator: case-insensitive text order with text-bearing
elements first, falling back to selector order. -/
def elemCmp (a b : ElemInfo) : Int :=
  let aText := lowerL a.text
  let bText := lowerL b.text
  if aText ≠ [] ∧ bText ≠ [] then lexCmp aText bText
  else if aText ≠ [] then -1
  else if bText ≠ [] then 1
  else lexCmp a.selector b.selector

/-- The full element list produced by one zone scan: fold the candidates
through `scanStep` starting from empty results and seen-set, then sort. -/
def runZoneScanElements (space : List Char) (scrollX scrollY : ℚ) (zone : QRect)
    (cands : List ScanCandidate) : List ElemInfo :=
  List.insertionSort (fun a b => elemCmp a b ≤ 0)
    ((cands.foldl (scanStep space scrollX scrollY zone) ([], [])).1)

theorem scanStep_cases (space : List Char) (sx sy : ℚ) (zone : QRect)
    (st : List ElemInfo × List (List Char)) (c : ScanCandidate) :
    scanStep space sx sy zone st c = st ∨
    (scanStep space sx sy zone st c = (st.1 ++ [mkElemInfo c], st.2 ++ [c.selector]) ∧
     ¬ c.selector ∈ st.2 ∧ intersectsB zone (rectInSpace space sx sy c) = true) := by
  unfold scanStep
  by_cases h1 : c.isHtmlElement = false
  · rw [if_pos h1]; exact Or.inl rfl
  · rw [if_neg h1]
    by_cases h2 : isInteractive c = false
    · rw [if_pos h2]; exact Or.inl rfl
    · rw [if_neg h2]
      by_cases h3 : c.width ≤ 0 ∨ c.height ≤ 0
      · rw [if_pos h3]; exact Or.inl rfl
      · rw [if_neg h3]
        by_cases h4 : intersectsB zone (rectInSpace space sx sy c) = false
        · rw [if_pos h4]; exact Or.inl rfl
        · rw [if_neg h4]
          by_cases h5 : c.selector = [] ∨ c.selector ∈ st.2
          · rw [if_pos h5]; exact Or.inl rfl
          · rw [if_neg h5]
            push_neg at h5
            exact Or.inr ⟨rfl, h5.2, by
              revert h4
              cases intersectsB zone (rectInSpace space sx sy c) <;> simp⟩

theorem scanFold_spec (space : List Char) (sx sy : ℚ) (zone : QRect) :
    ∀ (cands : List ScanCandidate) (st : List ElemInfo × List (List Char)),
    (st.1.map ElemInfo.selector).Nodup →
    (∀ s ∈ st.1.map ElemInfo.selector, s ∈ st.2) →
    ((cands.foldl (scanStep space sx sy zone) st).1.map ElemInfo.selector).Nodup ∧
    (∀ s ∈ (cands.foldl (scanStep space sx sy zone) st).1.map ElemInfo.selector,
      s ∈ (cands.foldl (scanStep space sx sy zone) st).2) ∧
    (∀ e ∈ (cands.foldl (scanStep space sx sy zone) st).1, e ∈ st.1 ∨
      ∃ c ∈ cands, mkElemInfo c = e ∧
        intersectsB zone (rectInSpace space sx sy c) = true) := by
  intro cands
  induction cands with
  | nil =>
    intro st h1 h2
    exact ⟨h1, h2, fun e he => Or.inl he⟩
  | cons c cs ih =>
    intro st h1 h2
    simp only [List.foldl_cons]
    rcases scanStep_cases space sx sy zone st c with hc | ⟨hc, hsel, hint⟩
    · rw [hc]
      obtain ⟨g1, g2, g3⟩ := ih st h1 h2
      refine ⟨g1, g2, fun e he => ?_⟩
      rcases g3 e he with h | ⟨d, hd, hmk⟩
      · exact Or.inl h
      · exact Or.inr ⟨d, by simp [hd], hmk⟩
    · rw [hc]
      have hnotin : ¬ c.selector ∈ st.1.map ElemInfo.selector := fun hin => hsel (h2 _ hin)
      have h1n : ((st.1 ++ [mkElemInfo c]).map ElemInfo.selector).Nodup := by
        rw [List.map_append]
        rw [List.nodup_append]
        refine ⟨h1, by simp, ?_⟩
        intro s hs
        simp only [List.map_cons, List.map_nil, List.mem_cons, List.not_mem_nil, or_false]
        intro heq
        rw [show (mkElemInfo c).selector = c.selector from rfl] at heq
        rw [heq] at hs
        exact hnotin hs
      have h2n : ∀ s ∈ (st.1 ++ [mkElemInfo c]).map ElemInfo.selector,
          s ∈ st.2 ++ [c.selector] := by
        intro s hs
        rw [List.map_append] at hs
        rcases List.mem_append.mp hs with h | h
        · exact List.mem_append.mpr (Or.inl (h2 _ h))
        · simp only [List.map_cons, List.map_nil, List.mem_cons, List.not_mem_nil,
            or_false] at h
          rw [show (mkElemInfo c).selector = c.selector from rfl] at h
          simp [h]
      obtain ⟨g1, g2, g3⟩ := ih (st.1 ++ [mkElemInfo c], st.2 ++ [c.selector]) h1n h2n
      refine ⟨g1, g2, fun e he => ?_⟩
      rcases g3 e he with h | ⟨d, hd, hmk⟩
      · rcases List.mem_append.mp h with h | h
        · exact Or.inl h
        · simp only [List.mem_cons, List.not_mem_nil, or_false] at h
          exact Or.inr ⟨c, by simp, h.symm, hint⟩
      · exact Or.inr ⟨d, by simp [hd], hmk⟩

/-- C5: for every single zone scan, the returned element list never contains
two entries with the same selector, and every returned element originates from
a candidate whose bounding rectangle (scroll-adjusted for `page` space,
viewport-relative otherwise) overlaps the mapped zone rectangle under the
axis-aligned test `a.left < b.right && a.right > b.left && a.top < b.bottom &&
a.bottom > b.top`; candidates whose rectangle does not overlap the zone are
never returned. -/
theorem c5_scan_dedup_overlap (space : List Char) (sx sy : ℚ) (zone : QRect)
    (cands : List ScanCandidate) :
    ((runZoneScanElements space sx sy zone cands).map ElemInfo.selector).Nodup ∧
    ∀ e ∈ runZoneScanElements space sx sy zone cands, ∃ c ∈ cands,
      mkElemInfo c = e ∧ intersectsB zone (rectInSpace space sx sy c) = true := by
  obtain ⟨g1, _, g3⟩ := scanFold_spec space sx sy zone cands ([], []) (by simp) (by simp)
  have hperm : List.Perm
      (List.insertionSort (fun a b => elemCmp a b ≤ 0)
        ((cands.foldl (scanStep space sx sy zone) ([], [])).1))
      ((cands.foldl (scanStep space sx sy zone) ([], [])).1) :=
    List.perm_insertionSort _ _
  constructor
  · unfold runZoneScanElements
    exact (List.Perm.nodup_iff (List.Perm.map ElemInfo.selector hperm)).mpr g1
  · intro e he
    have he2 : e ∈ (cands.foldl (scanStep space sx sy zone) ([], [])).1 :=
      (List.Perm.mem_iff hperm).mp he
    rcases g3 e he2 with h | h
    · exact absurd h (by simp)
    · exact h

/-- Witness for C5: a concrete scan (empty candidate list) has duplicate-free
selectors. -/
theorem c5_scan_dedup_overlap_witness :
    ((runZoneScanElements (("viewport").data) 0 0 ⟨0, 0, 0, 0⟩ []).map
      ElemInfo.selector).Nodup :=
  (c5_scan_dedup_overlap (("viewport").data) 0 0 ⟨0, 0, 0, 0⟩ []).1

/-! ### Zone-scan retry loop (`runSingleZoneScanWithRetry`) -/

/-- Observable side effects of the retry loop. -/
inductive ScanEvent where
  | waitStableDom (timeoutMs : Nat)
  | attemptEval (attempt : Nat)
  | backoff (ms : Nat)
deriving DecidableEq

/-- `isRecoverableScanError`: the four transient page-lifecycle error texts. -/
def isRecoverableScanError (msg : List Char) : Bool :=
  containsSub (("Execution context was destroyed").data) msg ||
  containsSub (("Cannot find context with specified id").data) msg ||
  containsSub (("Frame was detached").data) msg ||
  containsSub (("Target page, context or browser has been closed").data) msg

/-- The timeout of each best-effort `waitForStableDom` call. -/
def STABLE_DOM_TIMEOUT_MS : Nat := 3000

/-- The retry loop of `runSingleZoneScanWithRetry`, as a trace-producing
interpreter over the per-attempt evaluate outcomes.  Each iteration waits for
a stable DOM (bounded, failure ignored) and evaluates; a failure that is
non-recoverable or happens on the last of the 3 attempts is rethrown
immediately; otherwise the loop waits again, sleeps `200 * attempt` ms and
retries.  `fuel` counts the remaining loop iterations (`maxAttempts -
attempt + 1`); the zero case is the unreachable fall-through throw after the
loop. -/
def scanAttemptsFrom {α : Type} (outcomes : Nat → Except (List Char) α) :
    Nat → Nat → List ScanEvent × Except (List Char) α
  | 0, _ => ([], .error [])
  | fuel + 1, attempt =>
    let pre := [ScanEvent.waitStableDom STABLE_DOM_TIMEOUT_MS, ScanEvent.attemptEval attempt]
    match outcomes attempt with
    | .ok a => (pre, .ok a)
    | .error e =>
      if isRecoverableScanError e = false ∨ 3 ≤ attempt then (pre, .error e)
      else
        let rest := scanAttemptsFrom outcomes fuel (attempt + 1)
        (pre ++ [ScanEvent.waitStableDom STABLE_DOM_TIMEOUT_MS,
          ScanEvent.backoff (200 * attempt)] ++ rest.1, rest.2)

/-- One full run of the retry loop: attempts start at 1, at most 3 of them. -/
def runScanRetry {α : Type} (outcomes : Nat → Except (List Char) α) :
    List ScanEvent × Except (List Char) α :=
  scanAttemptsFrom outcomes 3 1

/-- C6: per-attempt behaviour of the zone-scan retry loop — the transient
error set is exactly the four page-lifecycle message fragments; a
non-transient first failure aborts immediately after a single attempt (each
attempt preceded by one bounded ~3s best-effort DOM wait) with that error; a
first-attempt success performs no retry; and three transient failures produce
exactly 3 attempts with linear backoffs of 200 ms and 400 ms between them,
surfacing the last transient error. -/
theorem c6_scan_retry_policy {α : Type} :
    (∀ msg : List Char, isRecoverableScanError msg =
      (containsSub (("Execution context was destroyed").data) msg ||
       containsSub (("Cannot find context with specified id").data) msg ||
       containsSub (("Frame was detached").data) msg ||
       containsSub (("Target page, context or browser has been closed").data) msg)) ∧
    (∀ (outcomes : Nat → Except (List Char) α) (e : List Char),
      outcomes 1 = .error e → isRecoverableScanError e = false →
      runScanRetry outcomes =
        ([.waitStableDom STABLE_DOM_TIMEOUT_MS, .attemptEval 1], .error e)) ∧
    (∀ (outcomes : Nat → Except (List Char) α) (a : α),
      outcomes 1 = .ok a →
      runScanRetry outcomes =
        ([.waitStableDom STABLE_DOM_TIMEOUT_MS, .attemptEval 1], .ok a)) ∧
    (∀ (outcomes : Nat → Except (List Char) α) (e1 e2 e3 : List Char),
      outcomes 1 = .error e1 → outcomes 2 = .error e2 → outcomes 3 = .error e3 →
      isRecoverableScanError e1 = true → isRecoverableScanError e2 = true →
      isRecoverableScanError e3 = true →
      runScanRetry outcomes =
        ([.waitStableDom STABLE_DOM_TIMEOUT_MS, .attemptEval 1,
          .waitStableDom STABLE_DOM_TIMEOUT_MS, .backoff 200,
          .waitStableDom STABLE_DOM_TIMEOUT_MS, .attemptEval 2,
          .waitStableDom STABLE_DOM_TIMEOUT_MS, .backoff 400,
          .waitStableDom STABLE_DOM_TIMEOUT_MS, .attemptEval 3], .error e3)) := by
  refine ⟨fun msg => rfl, ?_, ?_, ?_⟩
  · intro outcomes e h1 hrec
    unfold runScanRetry scanAttemptsFrom
    rw [h1]
    simp only [hrec, true_or, if_pos]
  · intro outcomes a h1
    unfold runScanRetry scanAttemptsFrom
    rw [h1]
  · intro outcomes e1 e2 e3 h1 h2 h3 hr1 hr2 hr3
    unfold runScanRetry
    simp [scanAttemptsFrom, h1, h2, h3, hr1, hr2, hr3]

/-- Witness for C6: three consecutive "execution context destroyed" failures
produce 3 attempts, backoffs 200 ms and 400 ms, and surface the last error. -/
theorem c6_scan_retry_policy_witness :
    runScanRetry (fun _ => (.error (("Execution context was destroyed").data) :
        Except (List Char) Nat)) =
      ([.waitStableDom STABLE_DOM_TIMEOUT_MS, .attemptEval 1,
        .waitStableDom STABLE_DOM_TIMEOUT_MS, .backoff 200,
        .waitStableDom STABLE_DOM_TIMEOUT_MS, .attemptEval 2,
        .waitStableDom STABLE_DOM_TIMEOUT_MS, .backoff 400,
        .waitStableDom STABLE_DOM_TIMEOUT_MS, .attemptEval 3],
       .error (("Execution context was destroyed").data)) :=
  c6_scan_retry_policy.2.2.2 _ _ _ _ rfl rfl rfl (by decide) (by decide) (by decide)

/-! ### ElementMatcher (`findBestInteractiveElement`) -/

/-- A Gemini-labeled interactive element (the fields the matcher reads). -/
structure UiInteractiveElement where
  id : List Char
  gridRef : List Char
  elementType : List Char
  role : Option (List Char)
  text : List Char
  actionability : List Char
  likelyActions : List (List Char)
  importance : List Char
  whyItMatters : List Char
  confidence : ℚ

/-- `[a-z0-9]` after lowercasing — the token alphabet of the query splitter. -/
def isAlnumLower (c : Char) : Bool :=
  (decide (97 ≤ c.toNat) && decide (c.toNat ≤ 122)) ||
  (decide (48 ≤ c.toNat) && decide (c.toNat ≤ 57))

/-- `phrase.split(/[^a-z0-9]+/).map(trim).filter(Boolean)`: the maximal
alphanumeric runs of the lowercased query. -/
def splitTokensAux : List Char → List Char → List (List Char)
  | acc, [] => if acc = [] then [] else [acc.reverse]
  | acc, c :: rest =>
    if isAlnumLower c then splitTokensAux (c :: acc) rest
    else if acc = [] then splitTokensAux [] rest
    else acc.reverse :: splitTokensAux [] rest

def tokenizeQuery (phrase : List Char) : List (List Char) :=
  splitTokensAux [] phrase

/-- Core text: `[id, text, elementType, role ?? ''].join(' ').toLowerCase()`. -/
def coreText (e : UiInteractiveElement) : List Char :=
  lowerL (List.intercalate ([' ']) [e.id, e.text, e.elementType, e.role.getD []])

/-- Secondary text: `[gridRef, actionability, ...likelyActions].join(' ').toLowerCase()`. -/
def auxText (e : UiInteractiveElement) : List Char :=
  lowerL (List.intercalate ([' ']) ([e.gridRef, e.actionability] ++ e.likelyActions))

/-- The phrase-level bonuses: +80 phrase in core, +20 phrase in secondary,
+20 exact text equality, +20 exact id equality. -/
def phraseScore (phrase : List Char) (e : UiInteractiveElement) : Nat :=
  (if containsSub phrase (coreText e) = true then 80 else 0) +
  (if containsSub phrase (auxText e) = true then 20 else 0) +
  (if lowerL e.text = phrase then 20 else 0) +
  (if lowerL e.id = phrase then 20 else 0)

/-- `(tokenMatchesCore, tokenMatchesAux)`: per token, count a core containment,
else a secondary containment. -/
def tokenTallies (tokens : List (List Char)) (e : UiInteractiveElement) : Nat × Nat :=
  tokens.foldl (fun mm t =>
    if containsSub t (coreText e) = true then (mm.1 + 1, mm.2)
    else if containsSub t (auxText e) = true then (mm.1, mm.2 + 1)
    else mm) (0, 0)

/-- The direct per-token field bonuses: +4 when the token occurs in the
lowercased text, +4 when it occurs in the lowercased id. -/
def tokenFieldScore (tokens : List (List Char)) (e : UiInteractiveElement) : Nat :=
  tokens.foldl (fun s t =>
    s + (if containsSub t (lowerL e.text) = true then 4 else 0) +
      (if containsSub t (lowerL e.id) = true then 4 else 0)) 0

/-- The score accumulated before the importance bonus. -/
def preImportanceScore (q : List Char) (e : UiInteractiveElement) : Nat :=
  phraseScore (lowerL q) e + tokenFieldScore (tokenizeQuery (lowerL q)) e +
    (tokenTallies (tokenizeQuery (lowerL q)) e).1 * 16 +
    (tokenTallies (tokenizeQuery (lowerL q)) e).2 * 4

/-- +2 for `critical` importance, +1 for `high`. -/
def importanceBonus (e : UiInteractiveElement) : Nat :=
  (if lowerL e.importance = ("critical").data then 2 else 0) +
  (if lowerL e.importance = ("high").data then 1 else 0)

/-- The full per-element score. -/
def elementScore (q : List Char) (e : UiInteractiveElement) : Nat :=
  preImportanceScore q e + importanceBonus e

/-- `coverage`: matched-token fraction, `1` for an empty token list. -/
def coverage (q : List Char) (e : UiInteractiveElement) : ℚ :=
  if (tokenizeQuery (lowerL q)).length = 0 then 1
  else (((tokenTallies (tokenizeQuery (lowerL q)) e).1 +
    (tokenTallies (tokenizeQuery (lowerL q)) e).2 : Nat) : ℚ) /
    ((tokenizeQuery (lowerL q)).length : ℚ)

/-- The `continue` guard: an element qualifies unless it has neither phrase
containment (core or secondary) nor ≥ 50% token coverage. -/
def qualifies (q : List Char) (e : UiInteractiveElement) : Bool :=
  containsSub (lowerL q) (coreText e) || containsSub (lowerL q) (auxText e) ||
    ! (decide (coverage q e < 1 / 2))

/-- One loop iteration of the matcher: skip non-qualifying elements, keep the
element when its score strictly exceeds the best so far. -/
def findBestStep (q : List Char) (st : Option UiInteractiveElement × Nat)
    (e : UiInteractiveElement) : Option UiInteractiveElement × Nat :=
  if qualifies q e = false then st
  else if st.2 < elementScore q e then (some e, elementScore q e) else st

/-- `findBestInteractiveElement`: fold all elements, return the best when its
score is positive. -/
def findBestInteractiveElement (elements : List UiInteractiveElement)
    (q : List Char) : Option UiInteractiveElement :=
  let st := elements.foldl (findBestStep q) (none, 0)
  if 0 < st.2 then st.1 else none

theorem containsSub_nil (s : List Char) : containsSub [] s = true := by
  cases s with
  | nil => rfl
  | cons c rest => simp [containsSub, listPrefixB]

theorem listPrefixB_append (pat v : List Char) : listPrefixB pat (pat ++ v) = true := by
  induction pat with
  | nil => rfl
  | cons p ps ih => simp [listPrefixB, ih]

theorem containsSub_of_decomp (pat u v s : List Char) (h : s = u ++ pat ++ v) :
    containsSub pat s = true := by
  induction u generalizing s with
  | nil =>
    simp only [List.nil_append] at h
    subst h
    cases pat with
    | nil => exact containsSub_nil _
    | cons p ps =>
      show containsSub (p :: ps) ((p :: ps) ++ v) = true
      rw [List.cons_append]
      simp only [containsSub, Bool.or_eq_true]
      exact Or.inl (by
        have h2 := listPrefixB_append (p :: ps) v
        rwa [List.cons_append] at h2)
  | cons a u2 ih =>
    subst h
    show containsSub pat (a :: (u2 ++ pat ++ v)) = true
    simp only [containsSub, Bool.or_eq_true]
    exact Or.inr (by
      have h2 := ih (u2 ++ pat ++ v) rfl
      simpa [List.append_assoc] using h2)

theorem coreText_contains_text (e : UiInteractiveElement) :
    ∃ u v, coreText e = u ++ lowerL e.text ++ v := by
  refine ⟨lowerL e.id ++ [' '],
    [' '] ++ lowerL e.elementType ++ [' '] ++ lowerL (e.role.getD []), ?_⟩
  unfold coreText lowerL
  have hsp : lowChar ' ' = ' ' := rfl
  simp [List.intercalate, List.intersperse, List.map_append, hsp]

theorem elementScore_submit_ge (e : UiInteractiveElement)
    (h : lowerL e.text = ("submit").data) :
    120 ≤ elementScore (("submit").data) e := by
  have hq : lowerL (("submit").data) = ("submit").data := by decide
  have htok : tokenizeQuery (("submit").data) = [("submit").data] := by decide
  have hpc : containsSub (("submit").data) (coreText e) = true := by
    obtain ⟨u, v, hcore⟩ := coreText_contains_text e
    rw [h] at hcore
    exact containsSub_of_decomp _ u v _ hcore
  have htext : containsSub (("submit").data) (lowerL e.text) = true := by
    rw [h]
    exact containsSub_of_decomp _ [] [] _ (by simp)
  unfold elementScore preImportanceScore phraseScore tokenFieldScore tokenTallies
  rw [hq, htok]
  simp only [List.foldl_cons, List.foldl_nil, hpc, htext, if_pos, if_true]
  rw [if_pos h]
  split_ifs <;> omega

theorem elementScore_submit_token_le (f : UiInteractiveElement)
    (h1 : lowerL f.text ≠ ("submit").data)
    (h2 : lowerL f.id ≠ ("submit").data)
    (h3 : containsSub (("submit").data) (auxText f) = false) :
    elementScore (("submit").data) f ≤ 107 := by
  have hq : lowerL (("submit").data) = ("submit").data := by decide
  have htok : tokenizeQuery (("submit").data) = [("submit").data] := by decide
  have hb : importanceBonus f ≤ 3 := by
    unfold importanceBonus
    split_ifs <;> omega
  unfold elementScore preImportanceScore phraseScore tokenFieldScore tokenTallies
  rw [hq, htok]
  simp only [List.foldl_cons, List.foldl_nil, h3, Bool.false_eq_true, if_false,
    if_neg h1, if_neg h2]
  split_ifs <;> omega

theorem findBestStep_cases (q : List Char) (st : Option UiInteractiveElement × Nat)
    (e : UiInteractiveElement) :
    (qualifies q e = false ∧ findBestStep q st e = st) ∨
    (qualifies q e = true ∧ ¬ st.2 < elementScore q e ∧ findBestStep q st e = st) ∨
    (qualifies q e = true ∧ st.2 < elementScore q e ∧
      findBestStep q st e = (some e, elementScore q e)) := by
  unfold findBestStep
  by_cases h : qualifies q e = false
  · rw [if_pos h]
    exact Or.inl ⟨h, rfl⟩
  · rw [if_neg h]
    have hq : qualifies q e = true := by
      revert h
      cases qualifies q e <;> simp
    by_cases h2 : st.2 < elementScore q e
    · rw [if_pos h2]
      exact Or.inr (Or.inr ⟨hq, h2, rfl⟩)
    · rw [if_neg h2]
      exact Or.inr (Or.inl ⟨hq, h2, rfl⟩)

theorem findBestFold_spec (q : List Char) :
    ∀ (es : List UiInteractiveElement) (st : Option UiInteractiveElement × Nat),
    (st.2 ≤ (es.foldl (findBestStep q) st).2) ∧
    ((es.foldl (findBestStep q) st).2 = st.2 → (es.foldl (findBestStep q) st) = st ∧
      ∀ f ∈ es, qualifies q f = true → elementScore q f ≤ st.2) ∧
    (st.2 < (es.foldl (findBestStep q) st).2 → ∃ l1 b l2, es = l1 ++ b :: l2 ∧
      (es.foldl (findBestStep q) st) = (some b, elementScore q b) ∧
      (∀ f ∈ l1, qualifies q f = true → elementScore q f < elementScore q b) ∧
      (∀ f ∈ l2, qualifies q f = true → elementScore q f ≤ elementScore q b)) := by
  intro es
  induction es with
  | nil =>
    intro st
    refine ⟨le_refl _, fun _ => ⟨rfl, by simp⟩, fun h => absurd h (by simp)⟩
  | cons e es ih =>
    intro st
    simp only [List.foldl_cons]
    rcases findBestStep_cases q st e with ⟨hq, hst⟩ | ⟨hq, hlt, hst⟩ | ⟨hq, hlt, hst⟩
    · rw [hst]
      obtain ⟨g1, g2, g3⟩ := ih st
      refine ⟨g1, ?_, ?_⟩
      · intro h
        obtain ⟨ga, gb⟩ := g2 h
        refine ⟨ga, ?_⟩
        intro f hf hqf
        rcases List.mem_cons.mp hf with h | h
        · rw [h] at hqf
          exact absurd hqf (by simp [hq])
        · exact gb f h hqf
      · intro h
        obtain ⟨l1, b, l2, hsplit, heq, hl1, hl2⟩ := g3 h
        refine ⟨e :: l1, b, l2, by simp [hsplit], heq, ?_, hl2⟩
        intro f hf hqf
        rcases List.mem_cons.mp hf with h2 | h2
        · rw [h2] at hqf
          exact absurd hqf (by simp [hq])
        · exact hl1 f h2 hqf
    · rw [hst]
      obtain ⟨g1, g2, g3⟩ := ih st
      refine ⟨g1, ?_, ?_⟩
      · intro h
        obtain ⟨ga, gb⟩ := g2 h
        refine ⟨ga, ?_⟩
        intro f hf hqf
        rcases List.mem_cons.mp hf with h2 | h2
        · rw [h2]
          omega
        · exact gb f h2 hqf
      · intro h
        obtain ⟨l1, b, l2, hsplit, heq, hl1, hl2⟩ := g3 h
        have hbgt : st.2 < elementScore q b := by
          rw [heq] at h
          exact h
        refine ⟨e :: l1, b, l2, by simp [hsplit], heq, ?_, hl2⟩
        intro f hf hqf
        rcases List.mem_cons.mp hf with h2 | h2
        · rw [h2]
          omega
        · exact hl1 f h2 hqf
    · rw [hst]
      obtain ⟨g1, g2, g3⟩ := ih (some e, elementScore q e)
      have hsc : ((some e, elementScore q e) : Option UiInteractiveElement × Nat).2 =
          elementScore q e := rfl
      refine ⟨by omega, ?_, ?_⟩
      · intro h
        omega
      · intro _
        rcases Nat.eq_or_lt_of_le g1 with hcase | hcase
        · obtain ⟨ga, gb⟩ := g2 hcase.symm
          refine ⟨[], e, es, by simp, by rw [ga], by simp, ?_⟩
          intro f hf hqf
          exact gb f hf hqf
        · obtain ⟨l1, b, l2, hsplit, heq, hl1, hl2⟩ := g3 hcase
          have hcase2 : elementScore q e < elementScore q b := by
            rw [heq] at hcase
            simpa using hcase
          refine ⟨e :: l1, b, l2, by simp [hsplit], heq, ?_, hl2⟩
          intro f hf hqf
          rcases List.mem_cons.mp hf with h2 | h2
          · rw [h2]
            omega
          · exact hl1 f h2 hqf

theorem coverage_lt_half_iff (q : List Char) (e : UiInteractiveElement)
    (hne : tokenizeQuery (lowerL q) ≠ []) :
    (coverage q e < 1 / 2 ↔
      2 * ((tokenTallies (tokenizeQuery (lowerL q)) e).1 +
        (tokenTallies (tokenizeQuery (lowerL q)) e).2) <
        (tokenizeQuery (lowerL q)).length) := by
  unfold coverage
  have hlen : (tokenizeQuery (lowerL q)).length ≠ 0 := by
    simpa [List.length_eq_zero] using hne
  rw [if_neg hlen]
  have hLpos : (0 : ℚ) < ((tokenizeQuery (lowerL q)).length : ℚ) := by
    have : 0 < (tokenizeQuery (lowerL q)).length := Nat.pos_of_ne_zero hlen
    exact_mod_cast this
  rw [div_lt_iff₀ hLpos]
  constructor
  · intro h
    have h2 : (((tokenTallies (tokenizeQuery (lowerL q)) e).1 +
        (tokenTallies (tokenizeQuery (lowerL q)) e).2 : Nat) * 2 : ℚ) <
        ((tokenizeQuery (lowerL q)).length : ℚ) := by
      push_cast
      push_cast at h
      linarith
    have h3 : ((tokenTallies (tokenizeQuery (lowerL q)) e).1 +
        (tokenTallies (tokenizeQuery (lowerL q)) e).2) * 2 <
        (tokenizeQuery (lowerL q)).length := by exact_mod_cast h2
    omega
  · intro h
    have h2 : (((tokenTallies (tokenizeQuery (lowerL q)) e).1 +
        (tokenTallies (tokenizeQuery (lowerL q)) e).2) * 2 : Nat) <
        (tokenizeQuery (lowerL q)).length := by omega
    have h3 : (((tokenTallies (tokenizeQuery (lowerL q)) e).1 +
        (tokenTallies (tokenizeQuery (lowerL q)) e).2 : Nat) * 2 : ℚ) <
        ((tokenizeQuery (lowerL q)).length : ℚ) := by exact_mod_cast h2
    push_cast at h3 ⊢
    linarith

/-- C7: element-matcher scoring — the query `submit` against an element whose
text is `Submit` scores at least 100 (phrase containment in the core fields
plus exact text equality plus per-token bonuses put it at ≥ 120) and outranks
any element whose only match is the single shared token; an element with
neither full-phrase containment in core or secondary fields nor ≥ 50%
query-token coverage is skipped by the loop entirely; `critical` importance
adds exactly +2 and `high` exactly +1; and a returned best element has a
positive score that no qualifying element exceeds, earlier qualifying
elements scoring strictly less (ties keep the first encountered). -/
theorem c7_matcher_scoring :
    (∀ e : UiInteractiveElement, lowerL e.text = ("submit").data →
      100 ≤ elementScore (("submit").data) e) ∧
    (∀ e f : UiInteractiveElement, lowerL e.text = ("submit").data →
      lowerL f.text ≠ ("submit").data → lowerL f.id ≠ ("submit").data →
      containsSub (("submit").data) (auxText f) = false →
      elementScore (("submit").data) f < elementScore (("submit").data) e) ∧
    (∀ (q : List Char) (e : UiInteractiveElement)
        (st : Option UiInteractiveElement × Nat),
      containsSub (lowerL q) (coreText e) = false →
      containsSub (lowerL q) (auxText e) = false →
      2 * ((tokenTallies (tokenizeQuery (lowerL q)) e).1 +
        (tokenTallies (tokenizeQuery (lowerL q)) e).2) <
        (tokenizeQuery (lowerL q)).length →
      findBestStep q st e = st) ∧
    (∀ (q : List Char) (e : UiInteractiveElement),
      (lowerL e.importance = ("critical").data →
        elementScore q e = preImportanceScore q e + 2) ∧
      (lowerL e.importance = ("high").data →
        elementScore q e = preImportanceScore q e + 1)) ∧
    (∀ (q : List Char) (es : List UiInteractiveElement) (e : UiInteractiveElement),
      findBestInteractiveElement es q = some e →
      0 < elementScore q e ∧ ∃ l1 l2, es = l1 ++ e :: l2 ∧
        (∀ f ∈ l1, qualifies q f = true → elementScore q f < elementScore q e) ∧
        (∀ f ∈ l2, qualifies q f = true → elementScore q f ≤ elementScore q e)) := by
  refine ⟨?_, ?_, ?_, ?_, ?_⟩
  · intro e h
    have h2 := elementScore_submit_ge e h
    omega
  · intro e f he h1 h2 h3
    have hf := elementScore_submit_token_le f h1 h2 h3
    have hge := elementScore_submit_ge e he
    omega
  · intro q e st hpc hpa hcov
    have hne : tokenizeQuery (lowerL q) ≠ [] := by
      intro hcontra
      rw [hcontra] at hcov
      simp at hcov
    have hcovq : coverage q e < 1 / 2 := (coverage_lt_half_iff q e hne).mpr hcov
    have hqual : qualifies q e = false := by
      unfold qualifies
      rw [hpc, hpa]
      have hcovq2 : coverage q e < 2⁻¹ := by rwa [one_div] at hcovq
      simp [hcovq2]
    unfold findBestStep
    rw [if_pos hqual]
  · intro q e
    constructor
    · intro h
      unfold elementScore importanceBonus
      rw [if_pos h, if_neg (by rw [h]; decide)]
    · intro h
      unfold elementScore importanceBonus
      rw [if_pos h, if_neg (by rw [h]; decide)]
  · intro q es e hfound
    unfold findBestInteractiveElement at hfound
    by_cases hpos : 0 < (es.foldl (findBestStep q) (none, 0)).2
    · rw [if_pos hpos] at hfound
      obtain ⟨_, _, g3⟩ := findBestFold_spec q es (none, 0)
      obtain ⟨l1, b, l2, hsplit, heq, hl1, hl2⟩ := g3 hpos
      rw [heq] at hfound
      have hbe : b = e := by
        simpa using hfound
      subst hbe
      rw [heq] at hpos
      exact ⟨by simpa using hpos, l1, l2, hsplit, hl1, hl2⟩
    · rw [if_neg hpos] at hfound
      exact absurd hfound (by simp)

/-- A labeled element whose text is `Submit` (exact-match candidate). -/
def sampleSubmitButton : UiInteractiveElement :=
  ⟨("b1").data, ("B2").data, ("button").data, none, ("Submit").data,
   ("clickable").data, [], ("high").data, [], 0⟩

/-- A labeled element sharing only the single token `submit` in its text. -/
def sampleTokenMatch : UiInteractiveElement :=
  ⟨("f1").data, ("C3").data, ("link").data, none, ("Submit feedback").data,
   ("clickable").data, [], ("low").data, [], 0⟩

/-- Witness for C7 at concrete elements: the exact `Submit` element scores at
least 100 and outranks the element that only shares the token. -/
theorem c7_matcher_scoring_witness :
    100 ≤ elementScore (("submit").data) sampleSubmitButton ∧
    elementScore (("submit").data) sampleTokenMatch <
      elementScore (("submit").data) sampleSubmitButton :=
  ⟨c7_matcher_scoring.1 sampleSubmitButton (by decide),
   c7_matcher_scoring.2.1 sampleSubmitButton sampleTokenMatch
     (by decide) (by decide) (by decide) (by decide)⟩

/-! ### JSON values and `JSON.parse` (the platform parser the code calls) -/

/-- Brace characters, named to keep them out of string literals. -/
def lbraceC : Char := Char.ofNat 123

def rbraceC : Char := Char.ofNat 125

/-- A JSON value.  Numbers are kept in exact literal form
`(-1)^neg × mantissa × 10^exp10` (JSON.parse's float rounding is idealized
away; the inputs under study only use small integers). -/
inductive JsonVal where
  | null : JsonVal
  | bool (b : Bool) : JsonVal
  | num (neg : Bool) (mantissa : Nat) (exp10 : Int) : JsonVal
  | str (s : List Char) : JsonVal
  | arr (items : List JsonVal) : JsonVal
  | obj (fields : List (List Char × JsonVal)) : JsonVal

/-- JSON insignificant whitespace (space, tab, LF, CR). -/
def jsonWsChar (c : Char) : Bool :=
  c.toNat = 32 || c.toNat = 9 || c.toNat = 10 || c.toNat = 13

def skipJsonWs (cs : List Char) : List Char := cs.dropWhile jsonWsChar

def hexVal (c : Char) : Option Nat :=
  if 48 ≤ c.toNat ∧ c.toNat ≤ 57 then some (c.toNat - 48)
  else if 97 ≤ c.toNat ∧ c.toNat ≤ 102 then some (c.toNat - 87)
  else if 65 ≤ c.toNat ∧ c.toNat ≤ 70 then some (c.toNat - 55)
  else none

/-- JSON string body parser (after the opening quote): returns the decoded
content and the remainder after the closing quote. -/
def jsonStringAux : Nat → List Char → Option (List Char × List Char)
  | 0, _ => none
  | _ + 1, [] => none
  | fuel + 1, c :: rest =>
    if c = '"' then some ([], rest)
    else if c = '\\' then
      match rest with
      | [] => none
      | e :: rest2 =>
        if e = '"' then (jsonStringAux fuel rest2).map (fun p => ('"' :: p.1, p.2))
        else if e = '\\' then (jsonStringAux fuel rest2).map (fun p => ('\\' :: p.1, p.2))
        else if e = '/' then (jsonStringAux fuel rest2).map (fun p => ('/' :: p.1, p.2))
        else if e = 'b' then (jsonStringAux fuel rest2).map (fun p => (Char.ofNat 8 :: p.1, p.2))
        else if e = 'f' then (jsonStringAux fuel rest2).map (fun p => (Char.ofNat 12 :: p.1, p.2))
        else if e = 'n' then (jsonStringAux fuel rest2).map (fun p => ('\n' :: p.1, p.2))
        else if e = 'r' then (jsonStringAux fuel rest2).map (fun p => (Char.ofNat 13 :: p.1, p.2))
        else if e = 't' then (jsonStringAux fuel rest2).map (fun p => ('\t' :: p.1, p.2))
        else if e = 'u' then
          match rest2 with
          | h1 :: h2 :: h3 :: h4 :: rest3 =>
            match hexVal h1, hexVal h2, hexVal h3, hexVal h4 with
            | some a, some b, some c2, some d =>
              (jsonStringAux fuel rest3).map
                (fun p => (Char.ofNat (((a * 16 + b) * 16 + c2) * 16 + d) :: p.1, p.2))
            | _, _, _, _ => none
          | _ => none
        else none
    else if c.toNat < 32 then none
    else (jsonStringAux fuel rest).map (fun p => (c :: p.1, p.2))

/-- Optional fraction part `.digits`. -/
def parseFracPart (cs : List Char) : Option (List Char × List Char) :=
  match cs with
  | p :: rest =>
    if p = '.' then
      let f := rest.takeWhile isDigitCh
      if f = [] then none else some (f, rest.dropWhile isDigitCh)
    else some ([], cs)
  | [] => some ([], cs)

/-- Optional exponent part `[eE][+-]?digits`. -/
def parseExpPart (cs : List Char) : Option (Int × List Char) :=
  match cs with
  | e :: rest =>
    if e = 'e' ∨ e = 'E' then
      let sr : Int × List Char :=
        match rest with
        | s :: r2 => if s = '+' then (1, r2) else if s = '-' then (-1, r2) else (1, rest)
        | [] => (1, rest)
      let ds := sr.2.takeWhile isDigitCh
      if ds = [] then none
      else some (sr.1 * (digitsValL ds : Int), sr.2.dropWhile isDigitCh)
    else some (0, cs)
  | [] => some (0, cs)

/-- JSON number parser (grammar `-?(0|[1-9][0-9]*)(\.[0-9]+)?([eE][+-]?[0-9]+)?`). -/
def parseJsonNumber (cs : List Char) : Option (JsonVal × List Char) :=
  let nr : Bool × List Char :=
    match cs with
    | c :: rest => if c = '-' then (true, rest) else (false, cs)
    | [] => (false, cs)
  let ints := nr.2.takeWhile isDigitCh
  let cs2 := nr.2.dropWhile isDigitCh
  if ints = [] then none
  else if 1 < ints.length ∧ ints.headD '0' = '0' then none
  else
    match parseFracPart cs2 with
    | none => none
    | some (fracs, cs3) =>
      match parseExpPart cs3 with
      | none => none
      | some (ex, cs4) =>
        some (JsonVal.num nr.1 (digitsValL (ints ++ fracs)) (ex - fracs.length), cs4)

/-- Parser modes: a single value, the tail of an array, the tail of an object. -/
inductive JMode where
  | value : JMode
  | items (acc : List JsonVal) : JMode
  | members (acc : List (List Char × JsonVal)) : JMode

/-- The recursive JSON parser, structural on fuel so it evaluates in the
kernel.  `value` parses one value after skipping whitespace; `items` /
`members` parse comma-separated tails after an element just finished. -/
def parseJ : Nat → JMode → List Char → Option (JsonVal × List Char)
  | 0, _, _ => none
  | fuel + 1, .value, cs0 =>
    let cs := skipJsonWs cs0
    match cs with
    | [] => none
    | c :: rest =>
      if c = '"' then (jsonStringAux (rest.length + 1) rest).map (fun p => (JsonVal.str p.1, p.2))
      else if c = lbraceC then
        let rest1 := skipJsonWs rest
        match rest1 with
        | d :: rest2 => if d = rbraceC then some (.obj [], rest2) else parseJ fuel (.members []) rest1
        | [] => none
      else if c = '[' then
        let rest1 := skipJsonWs rest
        match rest1 with
        | d :: rest2 => if d = ']' then some (.arr [], rest2) else parseJ fuel (.items []) rest1
        | [] => none
      else if listPrefixB (("true").data) cs then some (.bool true, cs.drop 4)
      else if listPrefixB (("false").data) cs then some (.bool false, cs.drop 5)
      else if listPrefixB (("null").data) cs then some (.null, cs.drop 4)
      else if c = '-' ∨ isDigitCh c = true then parseJsonNumber cs
      else none
  | fuel + 1, .items acc, cs =>
    match parseJ fuel .value cs with
    | none => none
    | some (v, rest) =>
      let rest1 := skipJsonWs rest
      match rest1 with
      | ']' :: rest2 => some (.arr (acc ++ [v]), rest2)
      | ',' :: rest2 => parseJ fuel (.items (acc ++ [v])) rest2
      | _ => none
  | fuel + 1, .members acc, cs =>
    let cs1 := skipJsonWs cs
    match cs1 with
    | '"' :: rest =>
      match jsonStringAux (rest.length + 1) rest with
      | none => none
      | some (key, rest2) =>
        match skipJsonWs rest2 with
        | ':' :: rest4 =>
          match parseJ fuel .value rest4 with
          | none => none
          | some (v, rest5) =>
            match skipJsonWs rest5 with
            | c :: rest7 =>
              if c = rbraceC then some (.obj (acc ++ [(key, v)]), rest7)
              else if c = ',' then parseJ fuel (.members (acc ++ [(key, v)])) rest7
              else none
            | [] => none
        | _ => none
    | _ => none

/-- `JSON.parse`: parse one value and require only whitespace to remain. -/
def jsonParse (cs : List Char) : Option JsonVal :=
  match parseJ (2 * cs.length + 4) .value cs with
  | some (v, rest) => if skipJsonWs rest = [] then some v else none
  | none => none

/-! ### Response-text parsing and the one-retry policy (`parseJsonObject`,
`runLabelsAnalysis`) -/

/-- Split at the first occurrence of three consecutive backticks: returns the
text before it and the text after it. -/
def splitAtTripleTick : List Char → Option (List Char × List Char)
  | [] => none
  | c :: rest =>
    if listPrefixB (("```").data) (c :: rest) then some ([], rest.drop 2)
    else (splitAtTripleTick rest).map (fun p => (c :: p.1, p.2))

/-- The capture of `/```(?:json)?\s*([\s\S]*?)```/i`: after the first fence,
optionally consume a case-insensitive `json`, skip whitespace, and capture
lazily up to the next fence.  `none` when no fenced block exists. -/
def fenceCapture (cs : List Char) : Option (List Char) :=
  match splitAtTripleTick cs with
  | none => none
  | some (_, after) =>
    let after1 := if lowerL (after.take 4) = ("json").data then after.drop 4 else after
    let after2 := after1.dropWhile isJsSpace
    match splitAtTripleTick after2 with
    | none => none
    | some (cap, _) => some cap

/-- `Gemini response was not valid JSON object. Raw response: ${trimmed}`. -/
def malformedMsg (trimmed : List Char) : List Char :=
  ("Gemini response was not valid JSON object. Raw response: ").data ++ trimmed

/-- `isRecord`: only a JSON object (not array, not null) qualifies. -/
def isRecordJson : JsonVal → Option (List (List Char × JsonVal))
  | .obj fields => some fields
  | _ => none

/-- `parseJsonObject` from chrome-client: trim the text, build the candidate
list — the (truthy) fenced capture is `unshift`ed in FRONT of the direct
text — and return the first candidate that parses to a JSON object, else the
malformed-response error. -/
def parseJsonObject (text : List Char) :
    Except (List Char) (List (List Char × JsonVal)) :=
  let trimmed := trimL text
  let candidates :=
    match fenceCapture trimmed with
    | some cap => if cap = [] then [trimmed] else [trimL cap, trimmed]
    | none => [trimmed]
  match candidates.findSome? (fun c => (jsonParse c).bind isRecordJson) with
  | some fields => .ok fields
  | none => .error (malformedMsg trimmed)

/-- Modelled from the spec: the same parse but trying the raw text FIRST and
the fenced capture only when the direct parse fails — the order §4.6 and the
claim describe.  Kept for comparison against `parseJsonObject`. -/
def parseJsonObjectSpecOrder (text : List Char) :
    Except (List Char) (List (List Char × JsonVal)) :=
  let trimmed := trimL text
  let candidates :=
    match fenceCapture trimmed with
    | some cap => if cap = [] then [trimmed] else [trimmed, trimL cap]
    | none => [trimmed]
  match candidates.findSome? (fun c => (jsonParse c).bind isRecordJson) with
  | some fields => .ok fields
  | none => .error (malformedMsg trimmed)

/-- One part of a Gemini response candidate. -/
structure GemPart where
  text : Option (List Char)

/-- One response candidate (`content?.parts`). -/
structure GemCandidate where
  parts : Option (List GemPart)

/-- The Gemini response body shape the extractor reads. -/
structure GemResponse where
  candidates : Option (List GemCandidate)

/-- The prefix of `Gemini returned no text content: ${JSON.stringify(data)}`
(the stringified payload does not affect the retry matching). -/
def noTextMsg : List Char := ("Gemini returned no text content").data

/-- `extractGeminiText`: flatten candidate parts, trim each text, drop empty
ones, fail when none remain, else join with newlines. -/
def extractGeminiText (resp : GemResponse) : Except (List Char) (List Char) :=
  let texts := (((resp.candidates.getD []).flatMap (fun c => c.parts.getD [])).map
    (fun p => trimL (p.text.getD []))).filter (fun t => decide (t ≠ []))
  if texts = [] then .error noTextMsg
  else .ok (List.intercalate ['\n'] texts)

/-- One model call outcome: a non-2xx (or transport) failure carrying the
thrown message, or a 2xx response body. -/
inductive ModelOutcome where
  | apiError (msg : List Char)
  | response (resp : GemResponse)

/-- The generation settings each request carries (the prompt's compact-retry
variant flag stands for the keep-fields-short instruction lines). -/
structure GenCfg where
  temperature : ℚ
  compactRetry : Bool

/-- First-attempt settings: temperature 0.1, normal prompt. -/
def cfgFirst : GenCfg := ⟨1 / 10, false⟩

/-- Retry settings: temperature 0.0, compact prompt. -/
def cfgRetry : GenCfg := ⟨0, true⟩

/-- Extract-then-parse pipeline for one model call. -/
def labelsPipeline (o : ModelOutcome) :
    Except (List Char) (List (List Char × JsonVal)) :=
  match o with
  | .apiError msg => .error msg
  | .response resp =>
    match extractGeminiText resp with
    | .error e => .error e
    | .ok text => parseJsonObject text

/-- The retry guard `/valid JSON object|returned no text content/i`. -/
def shouldRetryB (errMsg : List Char) : Bool :=
  containsSub (lowerL (("valid JSON object").data)) (lowerL errMsg) ||
  containsSub (lowerL (("returned no text content").data)) (lowerL errMsg)

/-- `runLabelsAnalysis`, modelled over the outcomes of its (at most two)
model calls: run the pipeline; on an error matching the retry guard run it
exactly once more with temperature 0 and the compact prompt; other errors
propagate with no second call.  The second component is the trace of request
settings actually issued. -/
def runLabelsAnalysisModel (o1 o2 : ModelOutcome) :
    Except (List Char) (List (List Char × JsonVal)) × List GenCfg :=
  match labelsPipeline o1 with
  | .ok v => (.ok v, [cfgFirst])
  | .error e =>
    if shouldRetryB e then (labelsPipeline o2, [cfgFirst, cfgRetry])
    else (.error e, [cfgFirst])

/-- The probe text: a JSON object whose single string value contains a fenced
empty object, `{"a":"` + three backticks + `{}` + three backticks + `"}`. -/
def fenceInsideStringText : List Char :=
  ("\x7b\"a\":\"```\x7b\x7d```\"\x7d").data

/-- C8 counterexample: `parseJsonObject` tries the fenced capture FIRST — on
a response that is itself a valid JSON object containing a fenced `\x7b\x7d`
inside a string value, the code returns the fenced empty object, while the
claimed direct-parse-first order returns the outer object; the two orders
disagree. -/
theorem c8_parse_order_counterexample :
    parseJsonObject fenceInsideStringText = .ok [] ∧
    parseJsonObjectSpecOrder fenceInsideStringText =
      .ok [((("a").data), JsonVal.str (("```\x7b\x7d```").data))] ∧
    parseJsonObject fenceInsideStringText ≠
      parseJsonObjectSpecOrder fenceInsideStringText := by
  have hA : parseJsonObject fenceInsideStringText = .ok [] := rfl
  have hB : parseJsonObjectSpecOrder fenceInsideStringText =
      .ok [((("a").data), JsonVal.str (("```\x7b\x7d```").data))] := rfl
  refine ⟨hA, hB, fun h => ?_⟩
  rw [hA, hB] at h
  have h2 := congrArg (fun x => match x with | Except.ok l => l.length | Except.error _ => 0) h
  simp at h2

/-- C8 amended: response handling with the code's actual candidate order —
the first fenced code block (when present and non-empty) is parsed FIRST and
the raw text is the fallback, so a response wrapping a valid JSON object in a
fenced block parses successfully with no retry; a pipeline failure whose
message matches the retry guard (which every malformed-response and
empty-response message does) triggers exactly one retry with temperature 0
and the keep-fields-short prompt; any error not matching the guard — e.g. a
typical non-2xx model API error — propagates immediately with no second
call. -/
theorem c8_retry_policy :
    (∀ t cap fields, fenceCapture (trimL t) = some cap → cap ≠ [] →
      jsonParse (trimL cap) = some (JsonVal.obj fields) →
      parseJsonObject t = .ok fields) ∧
    (∀ o1 o2 v, labelsPipeline o1 = .ok v →
      runLabelsAnalysisModel o1 o2 = (.ok v, [cfgFirst])) ∧
    (∀ o1 o2 e, labelsPipeline o1 = .error e → shouldRetryB e = true →
      runLabelsAnalysisModel o1 o2 = (labelsPipeline o2, [cfgFirst, cfgRetry])) ∧
    (∀ o1 o2 e, labelsPipeline o1 = .error e → shouldRetryB e = false →
      runLabelsAnalysisModel o1 o2 = (.error e, [cfgFirst])) ∧
    (∀ t, shouldRetryB (malformedMsg t) = true) ∧
    shouldRetryB noTextMsg = true ∧
    cfgRetry.temperature = 0 ∧ cfgRetry.compactRetry = true ∧
    cfgFirst.temperature = 1 / 10 := by
  refine ⟨?_, ?_, ?_, ?_, ?_, by decide, rfl, rfl, rfl⟩
  · intro t cap fields hfence hcap hjson
    unfold parseJsonObject
    simp only [hfence, if_neg hcap, List.findSome?, hjson, Option.bind, isRecordJson]
  · intro o1 o2 v h1
    unfold runLabelsAnalysisModel
    rw [h1]
  · intro o1 o2 e h1 hretry
    unfold runLabelsAnalysisModel
    rw [h1]
    dsimp only
    rw [if_pos hretry]
  · intro o1 o2 e h1 hretry
    unfold runLabelsAnalysisModel
    rw [h1]
    dsimp only
    rw [if_neg (by simp [hretry])]
  · intro t
    have hpre : lowerL (("Gemini response was not valid JSON object. Raw response: ").data) =
        (("gemini response was not ").data) ++ (("valid json object").data) ++
        ((". raw response: ").data) := by decide
    have hpat : lowerL (("valid JSON object").data) = ("valid json object").data := by decide
    have hdec : lowerL (malformedMsg t) = (("gemini response was not ").data) ++
        (("valid json object").data) ++ (((". raw response: ").data) ++ lowerL t) := by
      unfold malformedMsg
      rw [show ∀ a b : List Char, lowerL (a ++ b) = lowerL a ++ lowerL b from
        fun a b => List.map_append lowChar a b]
      rw [hpre]
      simp [List.append_assoc]
    have hsub : containsSub (lowerL (("valid JSON object").data))
        (lowerL (malformedMsg t)) = true := by
      rw [hpat]
      exact containsSub_of_decomp _ (("gemini response was not ").data)
        (((". raw response: ").data) ++ lowerL t) _ hdec
    unfold shouldRetryB
    rw [hsub]
    simp

/-- A model response whose single part wraps a JSON object in a fenced code
block. -/
def sampleFencedResponse : ModelOutcome :=
  .response ⟨some [⟨some [⟨some (("```json\n\x7b\"x\":1\x7d\n```").data)⟩]⟩]⟩

/-- Witness for C8: the fenced response parses on the first call — one
request only, no retry — and a non-matching API error propagates with one
request. -/
theorem c8_retry_policy_witness :
    runLabelsAnalysisModel sampleFencedResponse (.apiError (("BOOM").data)) =
      (.ok [((("x").data), JsonVal.num false 1 0)], [cfgFirst]) ∧
    runLabelsAnalysisModel (.apiError (("BOOM").data)) sampleFencedResponse =
      (.error (("BOOM").data), [cfgFirst]) :=
  ⟨c8_retry_policy.2.1 sampleFencedResponse (.apiError (("BOOM").data))
      [((("x").data), JsonVal.num false 1 0)] rfl,
   c8_retry_policy.2.2.2.1 (.apiError (("BOOM").data)) sampleFencedResponse
      (("BOOM").data) rfl (by decide)⟩

/-! ### Bridge worker invocation (`runBridge`) -/

/-- `BRIDGE_TIMEOUT_MS = 120_000`. -/
def bridgeTimeoutMs : Nat := 120000

/-- `CDP bridge timed out after ${BRIDGE_TIMEOUT_MS}ms (op: ${op}).` -/
def bridgeTimeoutMsg (op : List Char) : List Char :=
  ("CDP bridge timed out after ").data ++ natDecL bridgeTimeoutMs ++
  ("ms (op: ").data ++ op ++ (").").data

/-- `CDP bridge failed with exit code ${code}` (the fallback when both
channels are blank). -/
def bridgeExitMsg (code : Int) : List Char :=
  ("CDP bridge failed with exit code ").data ++
  (if code < 0 then '-' :: natDecL code.natAbs else natDecL code.natAbs)

/-- `Failed to parse bridge output: ...` prefix. -/
def bridgeParseFailMsg : List Char := ("Failed to parse bridge output: ").data

/-- The events that can settle the bridge promise, in the order they fire:
the 120-second timer, a spawn error, or process close carrying the exit code
and the accumulated stdout/stderr. -/
inductive BridgeEvent where
  | timeoutFired : BridgeEvent
  | childError (msg : List Char) : BridgeEvent
  | closed (code : Int) (stdout stderr : List Char) : BridgeEvent

/-- What one invocation produced: the single settlement the caller sees and
whether the parent sent SIGKILL. -/
structure BridgeRun where
  outcome : Except (List Char) JsonVal
  sigkill : Bool

/-- How the first (and only) settling event resolves the call. -/
def settleBridgeEvent (op : List Char) : BridgeEvent → BridgeRun
  | .timeoutFired => ⟨.error (bridgeTimeoutMsg op), true⟩
  | .childError msg => ⟨.error msg, false⟩
  | .closed code out err =>
    if code ≠ 0 then
      ⟨.error (if trimL err ≠ [] then trimL err
        else if trimL out ≠ [] then trimL out
        else bridgeExitMsg code), false⟩
    else if trimL out = [] then ⟨.ok (JsonVal.obj []), false⟩
    else
      match jsonParse (trimL out) with
      | some v => ⟨.ok v, false⟩
      | none => ⟨.error (bridgeParseFailMsg ++ trimL out), false⟩

/-- `runBridge`: the `settled` flag means only the FIRST event settles the
promise; later events are ignored.  `none` models a promise that never
settles (no event at all — impossible in practice since the timer always
fires). -/
def runBridgeModel (op : List Char) : List BridgeEvent → Option BridgeRun
  | [] => none
  | e :: _ => some (settleBridgeEvent op e)

/-- C9: every bridge invocation is bounded by the hard 120000 ms wall-clock
budget; when the timer fires first the worker is SIGKILLed and the caller
receives exactly one timeout error naming the requested operation (whatever
later events arrive); a worker that exits non-zero with error-channel text
surfaces that text; and a successful worker's single stdout JSON object is
returned parsed. -/
theorem c9_bridge_contract :
    bridgeTimeoutMs = 120000 ∧
    (∀ (op : List Char) (rest : List BridgeEvent),
      runBridgeModel op (.timeoutFired :: rest) =
        some ⟨.error (bridgeTimeoutMsg op), true⟩) ∧
    (∀ op : List Char, ∃ u v, bridgeTimeoutMsg op = u ++ op ++ v) ∧
    (∀ (op err out : List Char) (code : Int) (rest : List BridgeEvent),
      code ≠ 0 → trimL err ≠ [] →
      runBridgeModel op (.closed code out err :: rest) =
        some ⟨.error (trimL err), false⟩) ∧
    (∀ (op out : List Char) (rest : List BridgeEvent) (v : JsonVal),
      trimL out ≠ [] → jsonParse (trimL out) = some v →
      runBridgeModel op (.closed 0 out (("")).data :: rest) =
        some ⟨.ok v, false⟩) := by
  refine ⟨rfl, fun op rest => rfl, ?_, ?_, ?_⟩
  · intro op
    exact ⟨("CDP bridge timed out after ").data ++ natDecL bridgeTimeoutMs ++
      ("ms (op: ").data, (").").data, rfl⟩
  · intro op err out code rest hcode herr
    unfold runBridgeModel settleBridgeEvent
    dsimp only
    rw [if_pos hcode, if_pos herr]
  · intro op out rest v hout hjson
    unfold runBridgeModel settleBridgeEvent
    dsimp only
    rw [if_neg (by simp), if_neg hout, hjson]

/-- Witness for C9 at concrete invocations: a timeout on a `gridScreenshot`
call, a non-zero exit surfacing trimmed stderr, and a success returning the
parsed stdout object. -/
theorem c9_bridge_contract_witness :
    runBridgeModel (("gridScreenshot").data) [.timeoutFired] =
      some ⟨.error (bridgeTimeoutMsg (("gridScreenshot").data)), true⟩ ∧
    runBridgeModel (("scanZones").data) [.closed 1 [] (("boom ").data)] =
      some ⟨.error (trimL (("boom ").data)), false⟩ ∧
    runBridgeModel (("navigate").data) [.closed 0 (("\x7b\x7d").data) (("")).data] =
      some ⟨.ok (JsonVal.obj []), false⟩ :=
  ⟨c9_bridge_contract.2.1 (("gridScreenshot").data) [],
   c9_bridge_contract.2.2.2.1 (("scanZones").data) (("boom ").data) [] 1 []
     (by decide) (by decide),
   c9_bridge_contract.2.2.2.2 (("navigate").data) (("\x7b\x7d").data) []
     (JsonVal.obj []) (by decide) rfl⟩
